import Mathlib

set_option maxRecDepth 100000
set_option maxHeartbeats 4000000

/-!
Verification development for the org document engine found in
`src/kpop/org/src/lib.rs` (Rust modules `core`, `parser` and `format`).

The Rust code is shallowly embedded over `List Char` (UTF-8 strings in source
order).  `nom` combinators are modelled as functions
`List Char → Option (α × List Char)`, where `none` plays the role of a
recoverable `nom` error.  Rust loops are modelled with an explicit fuel
argument; exhausting the fuel yields the dedicated outcome `LRes.div`, which
models non-termination of the corresponding Rust loop.  Random `Uuid`
identities (`OrgFileId`, `HeadingId`) are omitted from the model: no parsing or
formatting behaviour depends on them.
-/

/-- Strings are modelled as lists of characters in source order. -/
abbrev Str := List Char

/- ------------------------------------------------------------------ -/
/- Character classes and string utilities used by the Rust code       -/
/- ------------------------------------------------------------------ -/

/-- Characters matched by Rust `char::is_whitespace` (the Unicode
White_Space property, reproduced in full). -/
def rustIsWhitespace (c : Char) : Bool :=
  c == ' ' || c == '\t' || c == '\n' || c == '\x0b' || c == '\x0c' || c == '\r' ||
  c == '\u0085' || c == ' ' || c == ' ' ||
  (0x2000 ≤ c.toNat && c.toNat ≤ 0x200a) ||
  c == ' ' || c == ' ' || c == ' ' || c == ' ' || c == '　'

/-- Rust `str::trim_start`. -/
def rustTrimStart (s : Str) : Str := s.dropWhile rustIsWhitespace

/-- Rust `str::trim_end`. -/
def rustTrimEnd (s : Str) : Str := (s.reverse.dropWhile rustIsWhitespace).reverse

/-- Rust `str::trim`. -/
def rustTrim (s : Str) : Str := rustTrimStart (rustTrimEnd s)

/-- Rust `str::split_whitespace`: whitespace-separated words, empties dropped. -/
def splitWhitespaceGo (cur : Str) (acc : List Str) : Str → List Str
  | [] => if cur.isEmpty then acc.reverse else (cur.reverse :: acc).reverse
  | c :: r =>
    if rustIsWhitespace c then
      if cur.isEmpty then splitWhitespaceGo [] acc r
      else splitWhitespaceGo [] (cur.reverse :: acc) r
    else splitWhitespaceGo (c :: cur) acc r

/-- Rust `str::split_whitespace` over `Str`. -/
def splitWhitespace (s : Str) : List Str := splitWhitespaceGo [] [] s

/-- Rust `str::split(sep)` for a single-character separator (keeps empties). -/
def splitOnChar (sep : Char) (s : Str) : List Str :=
  go [] [] s
where
  go (cur : Str) (acc : List Str) : Str → List Str
  | [] => (cur.reverse :: acc).reverse
  | c :: r => if c == sep then go [] (cur.reverse :: acc) r else go (c :: cur) acc r

/- ------------------------------------------------------------------ -/
/- `nom` combinator models                                            -/
/- ------------------------------------------------------------------ -/

/-- Model of `nom::bytes::complete::tag`. -/
def tagP (pat : Str) (i : Str) : Option Str :=
  if pat.isPrefixOf i then some (i.drop pat.length) else none

/-- Model of `nom::character::complete::char`. -/
def charP (c : Char) : Str → Option Str
  | [] => none
  | c' :: r => if c' == c then some r else none

/-- Model of `nom::character::complete::anychar`. -/
def anycharP : Str → Option (Char × Str)
  | [] => none
  | c :: r => some (c, r)

/-- Model of `take_while` (always succeeds). -/
def takeWhileP (p : Char → Bool) (i : Str) : Str × Str :=
  (i.takeWhile p, i.dropWhile p)

/-- Model of `take_while1` (requires at least one matching character).
`take_till1 q` from the source is `takeWhile1P (fun c => !(q c))`. -/
def takeWhile1P (p : Char → Bool) (i : Str) : Option (Str × Str) :=
  match takeWhileP p i with
  | ([], _) => none
  | (t, r) => some (t, r)

/-- Characters accepted by `nom` `space0`/`space1` (space and tab). -/
def isNomSpace (c : Char) : Bool := c == ' ' || c == '\t'

/-- Model of `space0` (returns the remaining input). -/
def space0P (i : Str) : Str := i.dropWhile isNomSpace

/-- Model of `space1`. -/
def space1P (i : Str) : Option Str :=
  match takeWhile1P isNomSpace i with
  | some (_, r) => some r
  | none => none

/-- Model of `digit1`. -/
def digit1P (i : Str) : Option (Str × Str) := takeWhile1P Char.isDigit i

/-- Model of `nom::character::complete::line_ending` (`"\n"` or `"\r\n"`). -/
def lineEndingP : Str → Option Str
  | '\n' :: r => some r
  | '\r' :: '\n' :: r => some r
  | _ => none

/-- Model of complete `not_line_ending`: consumes until `\r` or `\n`
(possibly nothing), failing when a `\r` is not followed by `\n`. -/
def notLineEndingP (i : Str) : Option (Str × Str) :=
  let t := i.takeWhile (fun c => c != '\r' && c != '\n')
  let r := i.dropWhile (fun c => c != '\r' && c != '\n')
  match r with
  | '\r' :: rest => if rest.headD ' ' == '\n' then some (t, r) else none
  | _ => some (t, r)

/-- Model of the source's `till_eol`:
`terminated(not_line_ending, opt(line_ending))`. -/
def till_eol (i : Str) : Option (Str × Str) :=
  match notLineEndingP i with
  | none => none
  | some (line, r) =>
    match lineEndingP r with
    | some r2 => some (line, r2)
    | none => some (line, r)

/-- Model of `nom::bytes::complete::take_until` (search for a substring,
fail when absent; the matched pattern itself is not consumed). -/
def takeUntilP (pat : Str) (i : Str) : Option (Str × Str) :=
  if pat.isPrefixOf i then some ([], i)
  else
    match i with
    | [] => none
    | c :: r =>
      match takeUntilP pat r with
      | some (a, b) => some (c :: a, b)
      | none => none

/-- Rust `str::split_once(pat)`. -/
def splitOnceSub (pat : Str) (s : Str) : Option (Str × Str) :=
  match takeUntilP pat s with
  | some (a, b) => some (a, b.drop pat.length)
  | none => none

/-- Model of the source's `take_while_m_n`: take all matching characters,
then fail unless the count lies within `[m, n]`. -/
def take_while_m_n (m n : Nat) (cond : Char → Bool) (i : Str) : Option (Str × Str) :=
  let (out, r) := takeWhileP cond i
  if out.length < m || n < out.length then none else some (out, r)

/-- Numeric value of an all-digit string (Rust `str::parse` on digits). -/
def digitsToNat (ds : Str) : Nat :=
  ds.foldl (fun a c => a * 10 + (c.toNat - 48)) 0

/-- Rust `str::rfind(pat)` for a two-character pattern: byte index of the
last occurrence. -/
def rfindSub2 (a b : Char) (s : Str) : Option Nat :=
  go 0 none s
where
  go (idx : Nat) (best : Option Nat) : Str → Option Nat
  | [] => best
  | [_] => best
  | c :: d :: r =>
    go (idx + 1) (if c == a && d == b then some idx else best) (d :: r)

/- ------------------------------------------------------------------ -/
/- Document model (Rust module `core`)                                -/
/- ------------------------------------------------------------------ -/

/-- Model of `chrono::NaiveDate` (a validated calendar date). -/
structure NaiveDate where
  year : Int
  month : Nat
  day : Nat
deriving DecidableEq, Repr

/-- Gregorian leap-year rule used by `chrono`. -/
def isLeapYear (y : Int) : Bool :=
  y % 4 == 0 && (y % 100 != 0 || y % 400 == 0)

/-- Number of days in a month. -/
def daysInMonth (y : Int) (m : Nat) : Nat :=
  if m == 2 then (if isLeapYear y then 29 else 28)
  else if m == 4 || m == 6 || m == 9 || m == 11 then 30
  else 31

/-- Model of `NaiveDate::from_ymd_opt`: `none` on out-of-range month/day. -/
def NaiveDate.fromYmdOpt (y : Int) (m d : Nat) : Option NaiveDate :=
  if 1 ≤ m && m ≤ 12 && 1 ≤ d && d ≤ daysInMonth y m then some ⟨y, m, d⟩ else none

/-- Model of `chrono::NaiveTime` restricted to hour/minute (the parser always
passes 0 seconds). -/
structure NaiveTime where
  hour : Nat
  minute : Nat
deriving DecidableEq, Repr

/-- Model of `NaiveTime::from_hms_opt(h, m, 0)`. -/
def NaiveTime.fromHmsOpt (h m : Nat) : Option NaiveTime :=
  if h < 24 && m < 60 then some ⟨h, m⟩ else none

/-- Rust `DateOffset`: a calendar offset in calendar units. -/
structure DateOffset where
  years : Int
  months : Int
  weeks : Int
  days : Int
  hours : Int
  minutes : Int
deriving DecidableEq, Repr

/-- Rust `RepeaterKind`. -/
inductive RepeaterKind where
  | fromLast
  | fromBase
  | fromNow
deriving DecidableEq, Repr

/-- Rust `Repeater`. -/
structure Repeater where
  kind : RepeaterKind
  interval : DateOffset
deriving DecidableEq, Repr

/-- Rust `Delay`. -/
structure Delay where
  before : Bool
  offset : DateOffset
deriving DecidableEq, Repr

/-- Rust `TimestampEnd`. -/
structure TimestampEnd where
  date : Option NaiveDate
  time : Option NaiveTime
deriving DecidableEq, Repr

/-- Rust `Timestamp`.  `tz` (a `FixedOffset`) is modelled as seconds east of
UTC; the parser never sets it.  The Rust field `end` is called `ends` here
(`end` is a Lean keyword). -/
structure Timestamp where
  active : Bool
  date : NaiveDate
  time : Option NaiveTime
  tz : Option Int
  ends : Option TimestampEnd
  repeater : Option Repeater
  delay : Option Delay
deriving DecidableEq, Repr

/-- Rust `TodoKeyword`. -/
structure TodoKeyword where
  text : Str
  is_done : Bool
deriving DecidableEq, Repr

/-- Rust `Planning`. -/
structure Planning where
  scheduled : Option Timestamp
  deadline : Option Timestamp
  closed : Option Timestamp
deriving DecidableEq, Repr

/-- Rust `Planning::default()`. -/
def Planning.empty : Planning := ⟨none, none, none⟩

/-- Rust `SourceRange`.  The Rust field `end` is called `stop` here. -/
structure SourceRange where
  start : Nat
  stop : Nat
deriving DecidableEq, Repr

/-- Rust `SourceRange::slice` (`&source[start..end]`). -/
def SourceRange.slice (r : SourceRange) (source : Str) : Str :=
  (source.drop r.start).take (r.stop - r.start)

/-- Rust `Emphasis`. -/
inductive Emphasis where
  | bold
  | italic
  | underline
  | strike
  | mark
deriving DecidableEq, Repr

/-- Rust `LinkKind`. -/
inductive LinkKind where
  | file (path : Str) (search : Option Str)
  | http (url : Str)
  | id (id : Str)
  | custom (protocol : Str) (target : Str)
deriving DecidableEq, Repr

/-- Rust `Inline`.  The struct `Link` is flattened into the `link`
constructor (`kind` and `desc` fields). -/
inductive Inline where
  | text (s : Str)
  | emphasis (kind : Emphasis) (children : List Inline)
  | code (s : Str)
  | verbatim (s : Str)
  | link (kind : LinkKind) (desc : Option (List Inline))
  | target (s : Str)
  | footnoteRef (s : Str)
  | entity (s : Str)
  | unknown (kind : Str) (raw : Str)
deriving Repr

/-- Rust `RichText`. -/
structure RichText where
  inlines : List Inline
deriving Repr

/-- Rust `RichText::default()`. -/
def RichText.empty : RichText := ⟨[]⟩

/-- Rust `ListKind`. -/
inductive ListKind where
  | unordered
  | ordered
  | description
deriving DecidableEq, Repr

/-- Rust `Checkbox`. -/
inductive Checkbox where
  | empty
  | partial_
  | checked
deriving DecidableEq, Repr

mutual
/-- Rust `Block`.  The constructor for Rust `Block::Example` is named
`exampleBlock` (`example` is a Lean keyword); `SrcBlock` and `Drawer` structs
are flattened into their constructors. -/
inductive Block where
  | paragraph (text : RichText)
  | list (kind : ListKind) (items : List ListItem)
  | quote (blocks : List Block)
  | exampleBlock (raw : Str)
  | srcBlock (language : Option Str) (parameters : List (Str × Str)) (code : Str)
  | drawer (name : Str) (content : List Block)
  | table (raw : List Str)
  | horizontalRule
  | comment (s : Str)
  | directive (key : Str) (value : Str)
  | unknown (kind : Str) (raw : Str)
deriving Repr

/-- Rust `ListItem` (single-constructor inductive because of the mutual
recursion with `Block`). -/
inductive ListItem where
  | mk (label : Option RichText) (content : List Block) (checkbox : Option Checkbox)
       (counter : Option Int) (tags : List Str)
deriving Repr
end

/-- Rust `BlockWithSource`. -/
structure BlockWithSource where
  block : Block
  source : Option SourceRange
deriving Repr

/-- Rust `BlockWithSource::new` (no source range). -/
def BlockWithSource.new (b : Block) : BlockWithSource := ⟨b, none⟩

/-- Rust `BlockWithSource::from_source`. -/
def BlockWithSource.from_source (b : Block) (r : SourceRange) : BlockWithSource :=
  ⟨b, some r⟩

/-- Rust `Section`. -/
structure Section where
  blocks : List BlockWithSource
deriving Repr

/-- Rust `Section::default()`. -/
def Section.empty : Section := ⟨[]⟩

/-- Rust `PropertyDrawer`; the `IndexMap` is an insertion-ordered
association list. -/
structure PropertyDrawer where
  props : List (Str × Str)
deriving Repr

/-- Rust `PropertyDrawer::default()`. -/
def PropertyDrawer.empty : PropertyDrawer := ⟨[]⟩

/-- Rust `IndexMap::insert`: overwrite in place when the key exists,
otherwise append. -/
def indexMapInsert (m : List (Str × Str)) (k v : Str) : List (Str × Str) :=
  if m.any (fun p => p.1 == k) then
    m.map (fun p => if p.1 == k then (k, v) else p)
  else m ++ [(k, v)]

/-- Rust `ClockEntry`.  The Rust field `end` is called `ends` here. -/
structure ClockEntry where
  start : Timestamp
  ends : Option Timestamp
  minutes : Option Int
  raw : Option Str
deriving DecidableEq, Repr

/-- Rust `StateChange` (never constructed by the parser; fields `from` and
`to` are renamed, both being Lean keywords). -/
structure StateChange where
  src : Option TodoKeyword
  dst : Option TodoKeyword
  at_ : Option Timestamp
  note : Option Str
deriving DecidableEq, Repr

/-- Rust `Logbook`. -/
structure Logbook where
  clock : List ClockEntry
  state_changes : List StateChange
  raw : List Str
deriving DecidableEq, Repr

/-- Rust `Logbook::default()`. -/
def Logbook.empty : Logbook := ⟨[], [], []⟩

/-- Rust `TodoSequence`. -/
structure TodoSequence where
  items : List Str
deriving DecidableEq, Repr

/-- Rust `FileSettings` (the `default_tz` `FixedOffset` is modelled as
seconds east of UTC; the parser never sets it). -/
structure FileSettings where
  todo_sequences : List TodoSequence
  priorities : List Char
  default_tz : Option Int
  meta : List (Str × Str)
deriving DecidableEq, Repr

/-- Rust `FileSettings::default()`. -/
def FileSettings.empty : FileSettings := ⟨[], ['A', 'B', 'C'], none, []⟩

/-- Every field of a Rust `Heading` except `children` (and the omitted random
`id`).  `Heading` itself is the recursive inductive below. -/
structure HeadingData where
  level : Nat
  title : RichText
  todo : Option TodoKeyword
  priority : Option Char
  tags : List Str
  planning : Planning
  properties : PropertyDrawer
  logbook : Logbook
  sec : Section
  canonical_id : Option Str
  headline_range : Option SourceRange
  planning_range : Option SourceRange
  properties_range : Option SourceRange
  logbook_range : Option SourceRange
deriving Repr

/-- Rust `Heading`: its scalar data plus the child headings. -/
inductive Heading where
  | mk (data : HeadingData) (children : List Heading)
deriving Repr

/-- Scalar data of a heading. -/
def Heading.data : Heading → HeadingData
  | .mk d _ => d

/-- Child headings. -/
def Heading.children : Heading → List Heading
  | .mk _ c => c

/-- Level of a heading. -/
def Heading.level (h : Heading) : Nat := h.data.level

/-- Replace the scalar data of a heading. -/
def Heading.withData : Heading → HeadingData → Heading
  | .mk _ c, d => .mk d c

/-- Append child headings (Rust `node.children.extend(..)` /
`parent.children.push(..)`). -/
def Heading.addChildren : Heading → List Heading → Heading
  | .mk d c, ks => .mk d (c ++ ks)

/-- Rust `Heading::new` (identity omitted; every other field defaulted). -/
def Heading.new (level : Nat) (title : RichText) : Heading :=
  .mk
    { level := level
      title := title
      todo := none
      priority := none
      tags := []
      planning := Planning.empty
      properties := PropertyDrawer.empty
      logbook := Logbook.empty
      sec := Section.empty
      canonical_id := none
      headline_range := none
      planning_range := none
      properties_range := none
      logbook_range := none }
    []

/-- Push a block into a heading's section
(Rust `node.section.blocks.push(..)`). -/
def Heading.pushBlock (h : Heading) (b : BlockWithSource) : Heading :=
  h.withData { h.data with sec := ⟨h.data.sec.blocks ++ [b]⟩ }

/-- Rust `OrgFile` (random identity omitted; `path` kept as a string). -/
structure OrgFile where
  path : Option Str
  title : Option Str
  file_tags : List Str
  settings : FileSettings
  preamble : List BlockWithSource
  headings : List Heading
  source_text : Option Str
deriving Repr

/-- Rust `OrgFile::new`. -/
def OrgFile.new (path : Option Str) : OrgFile :=
  { path := path
    title := none
    file_tags := []
    settings := FileSettings.empty
    preamble := []
    headings := []
    source_text := none }

/-- Lexicographic (byte/codepoint) comparison of strings, mirroring the
`Ord` instance of Rust `String`. -/
def strLt : Str → Str → Bool
  | [], [] => false
  | [], _ :: _ => true
  | _ :: _, [] => false
  | a :: as, b :: bs => if a < b then true else if b < a then false else strLt as bs

/-- Rust `BTreeSet::insert` over the sorted-list model of a string set. -/
def btreeInsert (s : List Str) (x : Str) : List Str :=
  match s with
  | [] => [x]
  | y :: r =>
    if x = y then y :: r
    else if strLt x y then x :: y :: r
    else y :: btreeInsert r x

/- ------------------------------------------------------------------ -/
/- Inline markup (Rust functions in `parser`, `INLINE MARKUP` block)  -/
/- ------------------------------------------------------------------ -/

/-- Rust `coalesce_text`: merge adjacent `Text` nodes (the accumulator is
kept reversed; its head is the last pushed node). -/
def coalesce_text (xs : List Inline) : List Inline :=
  go [] xs
where
  go (acc : List Inline) : List Inline → List Inline
  | [] => acc.reverse
  | x :: rest =>
    match acc, x with
    | Inline.text prev :: accRest, Inline.text s => go (Inline.text (prev ++ s) :: accRest) rest
    | _, _ => go (x :: acc) rest

/-- Rust `link_kind_from_target`. -/
def link_kind_from_target (t : Str) : LinkKind :=
  let s := rustTrim t
  if "http://".toList.isPrefixOf s || "https://".toList.isPrefixOf s then
    .http s
  else if "id:".toList.isPrefixOf s then
    .id (s.drop 3)
  else if "file:".toList.isPrefixOf s then
    match splitOnceSub "::".toList (s.drop 5) with
    | some (path, search) => .file path (some search)
    | none => .file (s.drop 5) none
  else if s.contains ':' then
    match splitOnceSub [':'] s with
    | some (proto, rest) => .custom proto rest
    | none => .file s none
  else
    .file s none

/-- Rust `parse_target_inline`. -/
def parse_target_inline (i : Str) : Option (Inline × Str) :=
  match tagP "<<".toList i with
  | none => none
  | some i1 =>
    match takeUntilP ">>".toList i1 with
    | none => none
    | some (name, i2) =>
      match tagP ">>".toList i2 with
      | none => none
      | some i3 => some (.target name, i3)

/-- Rust `parse_footnote_ref`. -/
def parse_footnote_ref (i : Str) : Option (Inline × Str) :=
  match tagP "[fn:".toList i with
  | none => none
  | some i1 =>
    match takeUntilP "]".toList i1 with
    | none => none
    | some (label, i2) =>
      match charP ']' i2 with
      | none => none
      | some i3 => some (.footnoteRef label, i3)

/-- Rust `parse_entity_inline` (`is_ascii_alphabetic`). -/
def parse_entity_inline (i : Str) : Option (Inline × Str) :=
  match charP '\\' i with
  | none => none
  | some i1 =>
    match takeWhile1P Char.isAlpha i1 with
    | none => none
    | some (ident, i2) => some (.entity ('\\' :: ident), i2)

/-- Rust `parse_code_like` (used with `~` for `Code` and `=` for
`Verbatim`; `take_till1(c == delim)` keeps characters distinct from the
delimiter). -/
def parse_code_like (delim : Char) (make : Str → Inline) (i : Str) : Option (Inline × Str) :=
  match charP delim i with
  | none => none
  | some i1 =>
    match takeWhile1P (fun c => c != delim) i1 with
    | none => none
    | some (body, i2) =>
      match charP delim i2 with
      | none => none
      | some i3 => some (make body, i3)

/-- The scheme alternatives tried by Rust `parse_autolink`, in source order. -/
def autolinkScheme (i : Str) : Option (Str × Str) :=
  match tagP "https://".toList i with
  | some r => some ("https://".toList, r)
  | none =>
  match tagP "http://".toList i with
  | some r => some ("http://".toList, r)
  | none =>
  match tagP "mailto:".toList i with
  | some r => some ("mailto:".toList, r)
  | none =>
  match tagP "file:".toList i with
  | some r => some ("file:".toList, r)
  | none =>
  match tagP "id:".toList i with
  | some r => some ("id:".toList, r)
  | none => none

/-- Rust `parse_autolink`. -/
def parse_autolink (i : Str) : Option (Inline × Str) :=
  match autolinkScheme i with
  | none => none
  | some (scheme, i1) =>
    match takeWhile1P (fun c => !rustIsWhitespace c && c != ')' && c != ']' && c != '>') i1 with
    | none => none
    | some (rest, i2) => some (.link (link_kind_from_target (scheme ++ rest)) none, i2)

/-- Characters that Rust `parse_text_chunk` accepts in a literal run. -/
def is_plain (c : Char) : Bool :=
  !(c == '[' || c == '<' || c == '*' || c == '/' || c == '_' || c == '+' ||
    c == '~' || c == '=' || c == '\\' || c == 'h' || c == 'f' || c == 'i' || c == 'm')

/-- Rust `parse_text_chunk`. -/
def parse_text_chunk (i : Str) : Option (Inline × Str) :=
  match takeWhile1P is_plain i with
  | none => none
  | some (s, r) => some (.text s, r)

mutual
/-- Rust `parse_inlines`: the whole-input loop.  Each successfully parsed
atom (or one-character fallback) is followed by one recursive step; fuel is
decremented at every mutual call, so a fuel of `6 * length + 16` is far more
than the call depth the Rust recursion can reach (`none` from fuel 0 mirrors
the dead `Err` branch of `parse_inlines_str`). -/
def parse_inlines_fuel : Nat → Str → Option (List Inline × Str)
  | 0, _ => none
  | _ + 1, [] => some ([], [])
  | fuel + 1, c :: r =>
    match inline_atom fuel (c :: r) with
    | some (node, rest) =>
      match parse_inlines_fuel fuel rest with
      | some (v, rem) => some (node :: v, rem)
      | none => none
    | none =>
      match parse_inlines_fuel fuel r with
      | some (v, rem) => some (.text [c] :: v, rem)
      | none => none

/-- Rust `parse_inlines_until`: like `parse_inlines` but stops in front of
the `stop` delimiter and fails at end of input (unclosed emphasis). -/
def parse_inlines_until : Nat → Char → Str → Option (List Inline × Str)
  | 0, _, _ => none
  | _ + 1, _, [] => none
  | fuel + 1, stop, c :: r =>
    if c == stop then some ([], c :: r)
    else
      match inline_atom fuel (c :: r) with
      | some (node, rest) =>
        match parse_inlines_until fuel stop rest with
        | some (v, rem) => some (node :: v, rem)
        | none => none
      | none =>
        match parse_inlines_until fuel stop r with
        | some (v, rem) => some (.text [c] :: v, rem)
        | none => none

/-- Rust `inline_atom`: the ordered `alt` over all inline constructs. -/
def inline_atom : Nat → Str → Option (Inline × Str)
  | 0, _ => none
  | fuel + 1, i =>
    match parse_link_bracketed fuel i with
    | some res => some res
    | none =>
    match parse_target_inline i with
    | some res => some res
    | none =>
    match parse_footnote_ref i with
    | some res => some res
    | none =>
    match parse_code_like '~' Inline.code i with
    | some res => some res
    | none =>
    match parse_code_like '=' Inline.verbatim i with
    | some res => some res
    | none =>
    match parse_emph_with fuel '*' .bold i with
    | some res => some res
    | none =>
    match parse_emph_with fuel '/' .italic i with
    | some res => some res
    | none =>
    match parse_emph_with fuel '_' .underline i with
    | some res => some res
    | none =>
    match parse_emph_with fuel '+' .strike i with
    | some res => some res
    | none =>
    match parse_autolink i with
    | some res => some res
    | none =>
    match parse_entity_inline i with
    | some res => some res
    | none => parse_text_chunk i

/-- Rust `parse_emph_with`: delimiter, then a body that may not start with a
space or newline, then the closing delimiter. -/
def parse_emph_with : Nat → Char → Emphasis → Str → Option (Inline × Str)
  | 0, _, _, _ => none
  | fuel + 1, delim, kind, i =>
    match charP delim i with
    | none => none
    | some i1 =>
      if (match i1 with | ' ' :: _ => true | '\n' :: _ => true | _ => false) then none
      else
        match parse_inlines_until fuel delim i1 with
        | none => none
        | some (children, i2) =>
          match charP delim i2 with
          | none => none
          | some i3 => some (.emphasis kind children, i3)

/-- Rust `parse_link_bracketed`.  Inside the description branch every `?`
aborts the whole function (it does not fall back to the no-description
path). -/
def parse_link_bracketed : Nat → Str → Option (Inline × Str)
  | 0, _ => none
  | fuel + 1, i =>
    match tagP "[[".toList i with
    | none => none
    | some i1 =>
      match takeUntilP "][".toList i1 with
      | some (target, i2) =>
        match tagP "][".toList i2 with
        | none => none
        | some i3 =>
          match takeUntilP "]]".toList i3 with
          | none => none
          | some (descRaw, i4) =>
            match tagP "]]".toList i4 with
            | none => none
            | some i5 =>
              some (.link (link_kind_from_target (rustTrim target))
                      (some (parse_inlines_str_fuel fuel descRaw)), i5)
      | none =>
        match takeUntilP "]]".toList i1 with
        | none => none
        | some (target, i2) =>
          match tagP "]]".toList i2 with
          | none => none
          | some i3 => some (.link (link_kind_from_target (rustTrim target)) none, i3)

/-- Rust `parse_inlines_str` at a given fuel (the `Err` branch corresponds
to fuel exhaustion). -/
def parse_inlines_str_fuel : Nat → Str → List Inline
  | 0, s => [.text s]
  | fuel + 1, s =>
    match parse_inlines_fuel fuel s with
    | some (v, rest) => coalesce_text (if rest.isEmpty then v else v ++ [.text rest])
    | none => [.text s]
end

/-- Fuel used for a whole-string inline parse; the mutual recursion above
decrements fuel at every call and advances through the input, so this bound
is never reached on the Rust side. -/
def inlineFuel (s : Str) : Nat := 6 * s.length + 16

/-- Rust `parse_inlines_str`. -/
def parse_inlines_str (s : Str) : List Inline :=
  parse_inlines_str_fuel (inlineFuel s) s

/-- Rust `rt_text`. -/
def rt_text (s : Str) : RichText := ⟨parse_inlines_str s⟩

/- ------------------------------------------------------------------ -/
/- Structural parser (Rust module `parser`)                           -/
/- ------------------------------------------------------------------ -/

/-- Outcome of a structural sub-parse.  `err frag` models a recoverable
`nom` error raised while looking at `frag`; `div` models a Rust loop that
never terminates (it is produced exactly when a loop's fuel runs out, and the
fuel bounds below exceed anything a terminating Rust run can use). -/
inductive LRes (α : Type) where
  | ok (val : α) (rest : Str)
  | err (frag : Str)
  | div
deriving Repr

/-- Rust `range_from`: half-open offsets into the original input, computed
from remaining-input lengths. -/
def range_from (base_len : Nat) (before after : Str) : SourceRange :=
  ⟨base_len - before.length, base_len - after.length⟩

/-- Rust `is_heading_line`: one or more `*` followed by a space. -/
def is_heading_line (s : Str) : Bool :=
  let n := (s.takeWhile (fun c => c == '*')).length
  1 ≤ n && (match s.drop n with | ' ' :: _ => true | _ => false)

/-- Rust `count_stars`. -/
def count_stars (s : Str) : Nat := (s.takeWhile (fun c => c == '*')).length

/-- Rust `is_tag_char` (`char::is_alphanumeric` restricted to its ASCII
fragment; tag classification of non-ASCII characters is not modelled). -/
def is_tag_char (c : Char) : Bool :=
  c.isAlphanum || c == '_' || c == '-' || c == '@' || c == '+'

/-- Rust `parse_colon_tags_inline`. -/
def parse_colon_tags_inline (s : Str) : List Str :=
  (splitOnChar ':' s).filter (fun part => !part.isEmpty && part.all is_tag_char)

/-- Rust `parse_hash_key_value` (`#+key: value` directive lines). -/
def parse_hash_key_value (i : Str) : Option ((Str × Str) × Str) :=
  match tagP "#+".toList i with
  | none => none
  | some i1 =>
    match takeWhile1P (fun c => c.isAlphanum || c == '_') i1 with
    | none => none
    | some (key, i2) =>
      match tagP ":".toList i2 with
      | none => none
      | some i3 =>
        match notLineEndingP (space0P i3) with
        | none => none
        | some (val, i4) =>
          match lineEndingP i4 with
          | some i5 => some ((key, val), i5)
          | none => some ((key, val), i4)

/-- Rust `parse_date` (`take_while_m_n` digit groups validated through
`NaiveDate::from_ymd_opt`; a failed validation is a `nom` error). -/
def parse_date (i : Str) : Option (NaiveDate × Str) :=
  match take_while_m_n 4 4 Char.isDigit i with
  | none => none
  | some (ys, i1) =>
    match charP '-' i1 with
    | none => none
    | some i2 =>
      match take_while_m_n 2 2 Char.isDigit i2 with
      | none => none
      | some (ms, i3) =>
        match charP '-' i3 with
        | none => none
        | some i4 =>
          match take_while_m_n 2 2 Char.isDigit i4 with
          | none => none
          | some (ds, i5) =>
            match NaiveDate.fromYmdOpt (digitsToNat ys) (digitsToNat ms) (digitsToNat ds) with
            | some d => some (d, i5)
            | none => none

/-- Rust `parse_time` (validated through `NaiveTime::from_hms_opt`). -/
def parse_time (i : Str) : Option (NaiveTime × Str) :=
  match take_while_m_n 1 2 Char.isDigit i with
  | none => none
  | some (hs, i1) =>
    match charP ':' i1 with
    | none => none
    | some i2 =>
      match take_while_m_n 2 2 Char.isDigit i2 with
      | none => none
      | some (ms, i3) =>
        match NaiveTime.fromHmsOpt (digitsToNat hs) (digitsToNat ms) with
        | some t => some (t, i3)
        | none => none

/-- Rust `parse_timestamp`.  The `active` flag only tracks the opening
bracket; a mismatched closing bracket is accepted, as in the source. -/
def parse_timestamp (i : Str) : Option (Timestamp × Str) :=
  let active := match i with | '<' :: _ => true | _ => false
  match (match charP '<' i with | some r => some r | none => charP '[' i) with
  | none => none
  | some i1 =>
    match parse_date i1 with
    | none => none
    | some (date, i2) =>
      let (timeOpt, i3) :=
        match space1P i2 with
        | some r =>
          (match parse_time r with
           | some (t, r2) => (some t, r2)
           | none => (none, i2))
        | none => (none, i2)
      let i4 :=
        match space1P i3 with
        | some r =>
          (match takeWhile1P Char.isAlpha r with
           | some (_, r2) => r2
           | none => i3)
        | none => i3
      match (match charP '>' i4 with | some r => some r | none => charP ']' i4) with
      | none => none
      | some i5 =>
        some ({ active := active, date := date, time := timeOpt, tz := none,
                ends := none, repeater := none, delay := none }, i5)

/-- Rust `preceded_ws`. -/
def preceded_ws {α : Type} (pat : Str) (inner : Str → Option (α × Str)) (i : Str) :
    Option (α × Str) :=
  match tagP pat (space0P i) with
  | none => none
  | some r => inner (space0P r)

/-- The field loop inside Rust `parse_planning_line`, acting on the
extracted line.  Each successful field consumes at least one character, so
fuel `line.length + 1` can never be exhausted; `none` covers both the
`planning` and `planning-empty` errors of the source. -/
def planningFieldsGo : Nat → Str → Planning → Bool → Option Planning
  | 0, _, _, _ => none
  | fuel + 1, rest, p, matched =>
    if (rustTrim rest).isEmpty then (if matched then some p else none)
    else
      match preceded_ws "SCHEDULED:".toList parse_timestamp rest with
      | some (ts, r) => planningFieldsGo fuel r { p with scheduled := some ts } true
      | none =>
      match preceded_ws "DEADLINE:".toList parse_timestamp rest with
      | some (ts, r) => planningFieldsGo fuel r { p with deadline := some ts } true
      | none =>
      match preceded_ws "CLOSED:".toList parse_timestamp rest with
      | some (ts, r) => planningFieldsGo fuel r { p with closed := some ts } true
      | none => none

/-- Rust `parse_planning_line`: one line, all of whose non-blank content
consists of `SCHEDULED:`/`DEADLINE:`/`CLOSED:` fields.  Returns the parsed
`Planning` together with the line length and newline length used for the
byte range. -/
def parse_planning_line (i : Str) : Option ((Planning × Nat × Nat) × Str) :=
  match till_eol i with
  | none => none
  | some (line, rest_after) =>
    match planningFieldsGo (line.length + 1) line Planning.empty false with
    | none => none
    | some p =>
      let consumed := i.length - rest_after.length
      let line_len := line.length
      let newline_len := consumed - line_len
      some ((p, line_len, newline_len), rest_after)

/-- Rust `parse_property_line` (` :KEY: value`). -/
def parse_property_line (i : Str) : Option ((Str × Str) × Str) :=
  match charP ':' (space0P i) with
  | none => none
  | some i1 =>
    match takeWhile1P (fun c => c.isUpper || c == '_' || c == '-') i1 with
    | none => none
    | some (key, i2) =>
      match charP ':' i2 with
      | none => none
      | some i3 =>
        match notLineEndingP (space0P i3) with
        | none => none
        | some (val, i4) =>
          match lineEndingP i4 with
          | some i5 => some ((key, val), i5)
          | none => some ((key, val), i4)

/-- The loop of Rust `parse_properties_drawer`.  Each parsed property line
consumes at least one character, so the fuel below is never exhausted. -/
def propsGo : Nat → Str → List (Str × Str) → LRes PropertyDrawer
  | 0, _, _ => .div
  | fuel + 1, rest, props =>
    match tagP ":END:".toList rest with
    | some r =>
      (match lineEndingP r with
       | some r2 => .ok ⟨props⟩ r2
       | none => .ok ⟨props⟩ r)
    | none =>
      match parse_property_line rest with
      | none => .err rest
      | some ((k, v), r) => propsGo fuel r (indexMapInsert props k v)

/-- Rust `parse_properties_drawer`. -/
def parse_properties_drawer (i : Str) : LRes PropertyDrawer :=
  match tagP ":PROPERTIES:".toList i with
  | none => .err i
  | some i1 =>
    match lineEndingP i1 with
    | none => .err i
    | some i2 => propsGo (i2.length + 1) i2 []

/-- Rust `parse_clock_minutes` (` => H:MM`, value in minutes). -/
def parse_clock_minutes (i : Str) : Option (Int × Str) :=
  match tagP "=>".toList (space0P i) with
  | none => none
  | some i1 =>
    match digit1P (space0P i1) with
    | none => none
    | some (hs, i2) =>
      match charP ':' i2 with
      | none => none
      | some i3 =>
        match digit1P i3 with
        | none => none
        | some (ms, i4) =>
          some ((digitsToNat hs : Int) * 60 + (digitsToNat ms : Int), i4)

/-- Rust `parse_clock_line`. -/
def parse_clock_line (i : Str) : Option (ClockEntry × Str) :=
  match tagP "CLOCK:".toList (space0P i) with
  | none => none
  | some i1 =>
    match space1P i1 with
    | none => none
    | some i2 =>
      match parse_timestamp i2 with
      | none => none
      | some (start, i3) =>
        match tagP "--".toList (space0P i3) with
        | none => none
        | some i4 =>
          let i5 := space0P i4
          let (endOpt, i6) :=
            match parse_timestamp i5 with
            | some (ts, r) => (some ts, r)
            | none => (none, i5)
          let (minOpt, i7) :=
            match parse_clock_minutes i6 with
            | some (m, r) => (some m, r)
            | none => (none, i6)
          let i8 := match lineEndingP i7 with | some r => r | none => i7
          some ({ start := start, ends := endOpt, minutes := minOpt, raw := none }, i8)

/-- The loop of Rust `parse_logbook_drawer`.  On input lacking a closing
`:END:` the Rust loop re-reads an empty line forever; here the fuel runs out
and the outcome is `div`. -/
def logbookGo : Nat → Str → List ClockEntry → List Str → LRes (List ClockEntry × List Str)
  | 0, _, _, _ => .div
  | fuel + 1, rest, clocks, raw =>
    match tagP ":END:".toList rest with
    | some r =>
      (match lineEndingP r with
       | some r2 => .ok (clocks, raw) r2
       | none => .ok (clocks, raw) r)
    | none =>
      match parse_clock_line rest with
      | some (ce, r) => logbookGo fuel r (clocks ++ [ce]) raw
      | none =>
        match till_eol rest with
        | none => .err rest
        | some (line, r) => logbookGo fuel r clocks (raw ++ [line])

/-- Rust `parse_logbook_drawer`. -/
def parse_logbook_drawer (i : Str) : LRes (List ClockEntry × List Str) :=
  match tagP ":LOGBOOK:".toList i with
  | none => .err i
  | some i1 =>
    match lineEndingP i1 with
    | none => .err i
    | some i2 => logbookGo (i2.length + 1) i2 [] []

/-- Rust `parse_blocks_from_lines` (used for generic drawer content). -/
def parse_blocks_from_lines (lines : List Str) : List Block :=
  go [] [] lines
where
  flushPara (blocks : List Block) (para : List Str) : List Block :=
    if para.isEmpty then blocks
    else blocks ++ [Block.paragraph (rt_text (List.intercalate ['\n'] para))]
  go (blocks : List Block) (para : List Str) : List Str → List Block
  | [] => flushPara blocks para
  | line :: r =>
    if (rustTrim line).isEmpty then go (flushPara blocks para) [] r
    else go blocks (para ++ [line]) r

/-- The loop of Rust `parse_generic_drawer`; like the logbook loop it never
terminates when `:END:` is missing (modelled by `div`). -/
def genericDrawerGo : Nat → Str → Str → List Str → LRes (Str × List Block)
  | 0, _, _, _ => .div
  | fuel + 1, rest, name, contentLines =>
    match tagP ":END:".toList rest with
    | some r =>
      (match lineEndingP r with
       | some r2 => .ok (name, parse_blocks_from_lines contentLines) r2
       | none => .ok (name, parse_blocks_from_lines contentLines) r)
    | none =>
      match till_eol rest with
      | none => .err rest
      | some (line, r) => genericDrawerGo fuel r name (contentLines ++ [line])

/-- Rust `parse_generic_drawer` (rejecting the two reserved names). -/
def parse_generic_drawer (i : Str) : LRes (Str × List Block) :=
  match charP ':' i with
  | none => .err i
  | some i1 =>
    match takeWhile1P Char.isUpper i1 with
    | none => .err i
    | some (name, i2) =>
      match charP ':' i2 with
      | none => .err i
      | some i3 =>
        match lineEndingP i3 with
        | none => .err i
        | some i4 =>
          if name = "PROPERTIES".toList || name = "LOGBOOK".toList then .err i
          else genericDrawerGo (i4.length + 1) i4 name []

/-- Rust `parse_hr` (spaces, one or more dashes, spaces, newline). -/
def parse_hr (i : Str) : Option Str :=
  match takeWhile1P (fun c => c == '-') (space0P i) with
  | none => none
  | some (_, r) => lineEndingP (space0P r)

/-- Rust `parse_checkbox`. -/
def parse_checkbox (i : Str) : Option (Checkbox × Str) :=
  match charP '[' i with
  | none => none
  | some i1 =>
    let state? : Option (Checkbox × Str) :=
      match i1 with
      | ' ' :: r => some (.empty, r)
      | '-' :: r => some (.partial_, r)
      | 'X' :: r => some (.checked, r)
      | 'x' :: r => some (.checked, r)
      | _ => none
    match state? with
    | none => none
    | some (state, i2) =>
      match charP ']' i2 with
      | none => none
      | some i3 =>
        match space1P i3 with
        | none => none
        | some i4 => some (state, i4)

/-- Rust `parse_list_item`. -/
def parse_list_item (i : Str) : Option ((ListKind × ListItem) × Str) :=
  let unordered : Option (ListKind × Str) :=
    match (match charP '-' (space0P i) with
           | some r => some r
           | none => charP '+' (space0P i)) with
    | some r =>
      (match space1P r with
       | some r2 => some (.unordered, r2)
       | none => none)
    | none => none
  let ordered : Option (ListKind × Str) :=
    match digit1P (space0P i) with
    | some (_, r) =>
      (match (match charP '.' r with | some r2 => some r2 | none => charP ')' r) with
       | some r2 =>
         (match space1P r2 with
          | some r3 => some (.ordered, r3)
          | none => none)
       | none => none)
    | none => none
  match (match unordered with | some k => some k | none => ordered) with
  | none => none
  | some (kind, i1) =>
    let (checkbox, i2) :=
      match parse_checkbox i1 with
      | some (cb, r) => (some cb, r)
      | none => (none, i1)
    match till_eol i2 with
    | none => none
    | some (text, i3) =>
      let item : ListItem :=
        .mk none [Block.paragraph ⟨parse_inlines_str (rustTrimEnd text)⟩] checkbox none []
      some ((kind, item), i3)

/-- The loop of Rust `parse_list`: keep taking items of the same bullet
style.  Every item consumes at least one character, so the fuel is never
exhausted. -/
def listGo : Nat → ListKind → List ListItem → Str → LRes (ListKind × List ListItem)
  | 0, _, _, _ => .div
  | fuel + 1, kind, items, i =>
    match parse_list_item i with
    | some ((k, it), r) =>
      if k = kind then listGo fuel kind (items ++ [it]) r
      else .ok (kind, items) i
    | none => .ok (kind, items) i

/-- Rust `parse_list`. -/
def parse_list (i : Str) : LRes (ListKind × List ListItem) :=
  match parse_list_item i with
  | none => .err i
  | some ((kind, first), i1) => listGo (i1.length + 1) kind [first] i1

/-- Rust `parse_headline`: one headline line (stars, optional TODO keyword,
optional priority cookie, title, trailing tags), recording its byte range. -/
def parse_headline (i : Str) (base_len : Nat) : Option (Heading × Str) :=
  match takeWhile1P (fun c => c == '*') i with
  | none => none
  | some (stars, i1) =>
    let level := stars.length % 256
    match space1P i1 with
    | none => none
    | some i2 =>
      let (todoOpt, i3) :=
        match takeWhile1P Char.isUpper i2 with
        | some (t, r) =>
          (match space1P r with
           | some r2 => (some t, r2)
           | none => ((none : Option Str), i2))
        | none => (none, i2)
      let (prioOpt, i4) :=
        match tagP "[#".toList i3 with
        | some r =>
          (match anycharP r with
           | some (c, r2) =>
             (match tagP "]".toList r2 with
              | some r3 => (some c, r3)
              | none => ((none : Option Char), i3))
           | none => (none, i3))
        | none => (none, i3)
      let i5 := if prioOpt.isSome then space0P i4 else i4
      let titleAll := i5.takeWhile (fun c => c != '\n')
      let i6 := i5.dropWhile (fun c => c != '\n')
      let title_text := rustTrimEnd titleAll
      let (tags, title_str) :=
        match rfindSub2 ' ' ':' title_text with
        | some pos =>
          let trail := title_text.drop (pos + 1)
          if (match trail with | ':' :: _ => true | _ => false) &&
             (match trail.getLast? with | some ':' => true | _ => false) then
            let cur := rustTrim trail
            let cur2 := (cur.reverse.dropWhile (fun c => c == ':')).reverse
            let tagList := (splitOnChar ':' cur2).filter
              (fun t => !t.isEmpty && t.all is_tag_char)
            (tagList.foldl btreeInsert [], rustTrimEnd (title_text.take pos))
          else ([], title_text)
        | none => ([], title_text)
      let i7 := match lineEndingP i6 with | some r => r | none => i6
      let h0 := Heading.new level ⟨parse_inlines_str title_str⟩
      let h1 := h0.withData
        { h0.data with
          todo := todoOpt.map (fun t => { text := t, is_done := false })
          priority := prioOpt
          tags := tags
          headline_range := some (range_from base_len i i7) }
      some (h1, i7)

/-- The planning merge performed by the body loops of
`parse_headings_tree` / `parse_headings_at_level`: a field present on the
newly parsed line overwrites the stored one, an absent field keeps it. -/
def mergePlanning (old p : Planning) : Planning :=
  { scheduled := match p.scheduled with | some ts => some ts | none => old.scheduled
    deadline := match p.deadline with | some ts => some ts | none => old.deadline
    closed := match p.closed with | some ts => some ts | none => old.closed }

/-- The planning-range update of the body loops: keep the existing start and
extend to the new end, or adopt the new range outright. -/
def extendPlanningRange : Option SourceRange → SourceRange → Option SourceRange
  | some existing, range => some { start := existing.start, stop := range.stop }
  | none, range => some range

/-- Rust `flush_section_paragraph`: emit the accumulated paragraph (if any)
as one block whose range runs from the recorded start to `current_rest`. -/
def flush_section_paragraph (node : Heading) (para_start : Option Str)
    (para_lines : List Str) (current_rest : Str) (base_len : Nat) :
    Heading × Option Str × List Str :=
  match para_start with
  | none => (node, none, para_lines)
  | some start =>
    let text := List.intercalate ['\n'] para_lines
    let paragraph := Block.paragraph (rt_text text)
    let range := range_from base_len start current_rest
    (node.pushBlock (BlockWithSource.from_source paragraph range), none, [])

/-- One step of the stack placement in Rust `parse_headings_tree`: pop every
open heading whose level is `≥ level`, attaching it to the new stack top or
to the roots.  Driven by a fuel that is instantiated with the stack length
(each step pops exactly one element). -/
def placeGo : Nat → List Heading → List Heading → Nat → List Heading × List Heading
  | 0, stack, roots, _ => (stack, roots)
  | fuel + 1, stack, roots, level =>
    match stack with
    | [] => ([], roots)
    | top :: rest =>
      if top.level < level then (top :: rest, roots)
      else
        match rest with
        | parent :: rest' => placeGo fuel (parent.addChildren [top] :: rest') roots level
        | [] => placeGo fuel [] (roots ++ [top]) level

/-- The final stack drain of Rust `parse_headings_tree`. -/
def drainGo : Nat → List Heading → List Heading → List Heading
  | 0, _, roots => roots
  | fuel + 1, stack, roots =>
    match stack with
    | [] => roots
    | top :: rest =>
      match rest with
      | parent :: rest' => drainGo fuel (parent.addChildren [top] :: rest') roots
      | [] => drainGo fuel [] (roots ++ [top])

mutual
/-- The top-level loop of Rust `parse_headings_tree` (explicit stack and
roots).  Fuel is decremented at every mutual call; the entry fuel
`2 * length + 4` exceeds what any run can use because every loop iteration
consumes input. -/
def headingsTreeGo : Nat → Nat → List Heading → List Heading → Str → LRes (List Heading)
  | 0, _, _, _, _ => .div
  | fuel + 1, base_len, stack, roots, i =>
    if i.isEmpty then .ok (drainGo stack.length stack roots) i
    else
      if is_heading_line i then
        match parse_headline i base_len with
        | none => .err i
        | some (node, r) =>
          match headingBodyGo fuel base_len node.level node none [] r with
          | .ok node' rest =>
            let pg := placeGo stack.length stack roots node'.level
            headingsTreeGo fuel base_len (node' :: pg.1) pg.2 rest
          | .err f => .err f
          | .div => .div
      else
        match till_eol i with
        | none => .err i
        | some (line, r) =>
          match stack with
          | last :: stackRest =>
            if (rustTrim line).isEmpty then
              headingsTreeGo fuel base_len (last :: stackRest) roots r
            else
              let range := range_from base_len i r
              let last' := last.pushBlock
                (BlockWithSource.from_source (Block.paragraph (rt_text line)) range)
              headingsTreeGo fuel base_len (last' :: stackRest) roots r
          | [] => headingsTreeGo fuel base_len [] roots r

/-- The body loop shared by Rust `parse_headings_tree` and
`parse_headings_at_level`: planning lines, drawers, rules, lists, child
subtrees and paragraph accumulation, until a sibling/ancestor heading or end
of input. -/
def headingBodyGo : Nat → Nat → Nat → Heading → Option Str → List Str → Str → LRes Heading
  | 0, _, _, _, _, _, _ => .div
  | fuel + 1, base_len, level, node, para_start, para_lines, i =>
    if i.isEmpty then
      .ok (flush_section_paragraph node para_start para_lines i base_len).1 i
    else
      if is_heading_line i then
        let fl := flush_section_paragraph node para_start para_lines i base_len
        let node1 := fl.1
        let ps1 := fl.2.1
        let pl1 := fl.2.2
        let next_level := count_stars i % 256
        if level < next_level then
          match parse_headings_at_level fuel base_len i next_level with
          | .ok children r2 =>
            headingBodyGo fuel base_len level (node1.addChildren children) ps1 pl1 r2
          | .err f => .err f
          | .div => .div
        else .ok node1 i
      else
      match parse_planning_line i with
      | some ((p, line_len, newline_len), r2) =>
        let fl := flush_section_paragraph node para_start para_lines i base_len
        let node1 := fl.1
        let ps1 := fl.2.1
        let pl1 := fl.2.2
        let start_offset := base_len - i.length
        let range : SourceRange := ⟨start_offset, start_offset + line_len + newline_len⟩
        let d := node1.data
        let node2 := node1.withData
          { d with planning := mergePlanning d.planning p
                   planning_range := extendPlanningRange d.planning_range range }
        headingBodyGo fuel base_len level node2 ps1 pl1 r2
      | none =>
      match parse_properties_drawer i with
      | .ok pd r2 =>
        let fl := flush_section_paragraph node para_start para_lines i base_len
        let node1 := fl.1
        let ps1 := fl.2.1
        let pl1 := fl.2.2
        let range := range_from base_len i r2
        let node2 := node1.withData
          { node1.data with properties := pd, properties_range := some range }
        headingBodyGo fuel base_len level node2 ps1 pl1 r2
      | .div => .div
      | .err _ =>
      match parse_logbook_drawer i with
      | .ok (clock, rawLines) r2 =>
        let fl := flush_section_paragraph node para_start para_lines i base_len
        let node1 := fl.1
        let ps1 := fl.2.1
        let pl1 := fl.2.2
        let range := range_from base_len i r2
        let node2 := node1.withData
          { node1.data with
            logbook := { node1.data.logbook with clock := clock, raw := rawLines }
            logbook_range := some range }
        headingBodyGo fuel base_len level node2 ps1 pl1 r2
      | .div => .div
      | .err _ =>
      match parse_generic_drawer i with
      | .ok (name, content) r2 =>
        let fl := flush_section_paragraph node para_start para_lines i base_len
        let node1 := fl.1
        let ps1 := fl.2.1
        let pl1 := fl.2.2
        let range := range_from base_len i r2
        let node2 := node1.pushBlock
          (BlockWithSource.from_source (Block.drawer name content) range)
        headingBodyGo fuel base_len level node2 ps1 pl1 r2
      | .div => .div
      | .err _ =>
      match parse_hr i with
      | some r2 =>
        let fl := flush_section_paragraph node para_start para_lines i base_len
        let node1 := fl.1
        let ps1 := fl.2.1
        let pl1 := fl.2.2
        let range := range_from base_len i r2
        let node2 := node1.pushBlock
          (BlockWithSource.from_source Block.horizontalRule range)
        headingBodyGo fuel base_len level node2 ps1 pl1 r2
      | none =>
      match parse_list i with
      | .ok (kind, items) r2 =>
        let fl := flush_section_paragraph node para_start para_lines i base_len
        let node1 := fl.1
        let ps1 := fl.2.1
        let pl1 := fl.2.2
        let range := range_from base_len i r2
        let node2 := node1.pushBlock
          (BlockWithSource.from_source (Block.list kind items) range)
        headingBodyGo fuel base_len level node2 ps1 pl1 r2
      | .div => .div
      | .err _ =>
        match till_eol i with
        | none => .err i
        | some (line, r2) =>
          let range := range_from base_len i r2
          if (rustTrim line).isEmpty then
            let fl := flush_section_paragraph node para_start para_lines i base_len
        let node1 := fl.1
        let ps1 := fl.2.1
        let pl1 := fl.2.2
            let node2 := node1.pushBlock
              (BlockWithSource.from_source (Block.paragraph RichText.empty) range)
            headingBodyGo fuel base_len level node2 ps1 pl1 r2
          else
            let ps1 := match para_start with | none => some i | some st => some st
            headingBodyGo fuel base_len level node ps1 (para_lines ++ [line]) r2

/-- Rust `parse_headings_at_level`: a maximal run of consecutive headings of
exactly `level`, each with its own body. -/
def parse_headings_at_level : Nat → Nat → Str → Nat → LRes (List Heading)
  | 0, _, _, _ => .div
  | fuel + 1, base_len, i, level =>
    if i.isEmpty || !is_heading_line i || count_stars i % 256 != level then .ok [] i
    else
      match parse_headline i base_len with
      | none => .err i
      | some (node, r) =>
        match headingBodyGo fuel base_len level node none [] r with
        | .ok node' rest =>
          (match parse_headings_at_level fuel base_len rest level with
           | .ok nodes rest' => .ok (node' :: nodes) rest'
           | .err f => .err f
           | .div => .div)
        | .err f => .err f
        | .div => .div
end

/-- Rust `parse_headings_tree` (entry point; empty stack and roots). -/
def parse_headings_tree (i : Str) (base_len : Nat) : LRes (List Heading) :=
  headingsTreeGo (2 * i.length + 4) base_len [] [] i

/-- Emit the accumulated preamble paragraph, mirroring the local
`flush_paragraph` of Rust `parse_preamble`. -/
def preFlush (blocks : List BlockWithSource) (para_lines : List Str)
    (para_start : Option Str) (current_rest : Str) (base_len : Nat) :
    List BlockWithSource :=
  match para_start with
  | none => blocks
  | some start =>
    blocks ++ [BlockWithSource.from_source
      (Block.paragraph (rt_text (List.intercalate ['\n'] para_lines)))
      (range_from base_len start current_rest)]

/-- The loop of Rust `parse_preamble`.  Every iteration consumes at least
one character, so the fuel is never exhausted. -/
def preambleGo : Nat → Nat → FileSettings → Option Str → List Str →
    List BlockWithSource → List Str → Option Str → Str →
    LRes (FileSettings × Option Str × List Str × List BlockWithSource)
  | 0, _, _, _, _, _, _, _, _ => .div
  | fuel + 1, base_len, settings, title, ftags, blocks, para_lines, para_start, i =>
    if i.isEmpty then
      .ok (settings, title, ftags, preFlush blocks para_lines para_start i base_len) i
    else
      if is_heading_line i then
        .ok (settings, title, ftags, preFlush blocks para_lines para_start i base_len) i
      else
        match parse_hash_key_value i with
        | some ((key, val), r) =>
          let blocks1 := preFlush blocks para_lines para_start i base_len
          let lkey := key.map Char.toLower
          let (settings', title', ftags') :=
            if lkey = "title".toList then (settings, some (rustTrim val), ftags)
            else if lkey = "filetags".toList then
              (settings, title, (parse_colon_tags_inline val).foldl btreeInsert ftags)
            else if lkey = "todo".toList ∨ lkey = "todo_keywords".toList then
              ((if (rustTrim val).isEmpty then settings
                else { settings with
                       todo_sequences := settings.todo_sequences ++ [⟨splitWhitespace val⟩] }),
               title, ftags)
            else
              ({ settings with meta := indexMapInsert settings.meta lkey val }, title, ftags)
          let range := range_from base_len i r
          let blocks2 := blocks1 ++
            [BlockWithSource.from_source (Block.directive key (rustTrim val)) range]
          preambleGo fuel base_len settings' title' ftags' blocks2 [] none r
        | none =>
          match till_eol i with
          | none => .err i
          | some (line, r) =>
            if (rustTrim line).isEmpty then
              let blocks1 := preFlush blocks para_lines para_start r base_len
              let range := range_from base_len i r
              let blocks2 := blocks1 ++
                [BlockWithSource.from_source (Block.paragraph RichText.empty) range]
              preambleGo fuel base_len settings title ftags blocks2 [] none r
            else
              let ps1 := match para_start with | none => some i | some st => some st
              preambleGo fuel base_len settings title ftags blocks (para_lines ++ [line]) ps1 r

/-- Rust `parse_preamble`. -/
def parse_preamble (i : Str) (base_len : Nat) :
    LRes (FileSettings × Option Str × List Str × List BlockWithSource) :=
  preambleGo (i.length + 1) base_len FileSettings.empty none [] [] [] none i

/-- Outcome of a whole-document parse: a document, a structured failure
naming the stage (`"preamble"` or `"headings"`) with the offending input
fragment, or divergence of the underlying Rust loop. -/
inductive POut where
  | ok (f : OrgFile)
  | fail (stage : Str) (frag : Str)
  | div
deriving Repr

/-- Rust `parse_org_from_str`. -/
def parse_org_from_str (path : Option Str) (s : Str) : POut :=
  let base_len := s.length
  match parse_preamble s base_len with
  | .err frag => .fail "preamble".toList frag
  | .div => .div
  | .ok (settings, file_title, file_tags, preamble_blocks) rest =>
    let file : OrgFile :=
      { OrgFile.new path with
        source_text := some s
        title := file_title
        file_tags := file_tags
        settings := settings
        preamble := preamble_blocks }
    match parse_headings_tree rest base_len with
    | .err frag => .fail "headings".toList frag
    | .div => .div
    | .ok headings _rest => .ok { file with headings := headings }

/-- Whole-document parse from a Lean `String` (no path). -/
def parseOrg (s : String) : POut := parse_org_from_str none s.toList

/- ------------------------------------------------------------------ -/
/- Formatter (Rust module `format`)                                   -/
/- ------------------------------------------------------------------ -/

/-- Decimal digits of a natural number (Rust integer `Display`). -/
def natToStr (n : Nat) : Str := Nat.toDigits 10 n

/-- Signed decimal (Rust `i64`/`i32` `Display`). -/
def intToStr (i : Int) : Str :=
  if i < 0 then '-' :: natToStr i.natAbs else natToStr i.natAbs

/-- Zero-padded two-digit field (`chrono` `%m`, `%d`, `%H`, `%M`). -/
def pad2 (n : Nat) : Str := if n < 10 then '0' :: natToStr n else natToStr n

/-- Zero-padded four-digit year (`chrono` `%Y`; negative years keep a sign). -/
def pad4 (i : Int) : Str :=
  let core := natToStr i.natAbs
  let padded := List.replicate (4 - core.length) '0' ++ core
  if i < 0 then '-' :: padded else padded

/-- Rust `str::lines` (used by the `Quote` renderer): split on `\n`,
dropping one trailing empty segment and any final `\r` on each line. -/
def linesOf (s : Str) : List Str :=
  let parts := splitOnChar '\n' s
  let parts2 := if parts.getLast? = some [] then parts.dropLast else parts
  parts2.map (fun l => if l.getLast? = some '\r' then l.dropLast else l)

/-- Rust `render_offset`. -/
def render_offset (offset : DateOffset) : Str :=
  if offset.weeks != 0 then natToStr offset.weeks.natAbs ++ ['w']
  else if offset.days != 0 then natToStr offset.days.natAbs ++ ['d']
  else if offset.months != 0 then natToStr offset.months.natAbs ++ ['m']
  else if offset.years != 0 then natToStr offset.years.natAbs ++ ['y']
  else if offset.hours != 0 then natToStr offset.hours.natAbs ++ ['h']
  else natToStr offset.minutes.natAbs ++ ['m']

/-- Rust `render_timestamp`. -/
def render_timestamp (ts : Timestamp) : Str :=
  (if ts.active then ['<'] else ['[']) ++
  pad4 ts.date.year ++ ['-'] ++ pad2 ts.date.month ++ ['-'] ++ pad2 ts.date.day ++
  (match ts.time with
   | some t => ' ' :: (pad2 t.hour ++ [':'] ++ pad2 t.minute)
   | none => []) ++
  (match ts.repeater with
   | some rep =>
     ' ' :: ((match rep.kind with
              | .fromLast => "+".toList
              | .fromBase => "++".toList
              | .fromNow => ".+".toList) ++ render_offset rep.interval)
   | none => []) ++
  (match ts.delay with
   | some d => ' ' :: ((if d.before then ['-'] else ['+']) ++ render_offset d.offset)
   | none => []) ++
  (if ts.active then ['>'] else [']'])

/-- Rust `render_link_target`. -/
def render_link_target : LinkKind → Str
  | .file path search =>
    (match search with
     | some s => "file:".toList ++ path ++ "::".toList ++ s
     | none => "file:".toList ++ path)
  | .http url => url
  | .id i => "id:".toList ++ i
  | .custom protocol target => protocol ++ [':'] ++ target

mutual
/-- Rust `render_rich_text` (one inline node). -/
def render_inline : Inline → Str
  | .text t => t
  | .emphasis kind children =>
    let marker : Char :=
      match kind with
      | .bold => '*'
      | .italic => '/'
      | .underline => '_'
      | .strike => '+'
      | .mark => '='
    marker :: render_rich_text children ++ [marker]
  | .code c => '~' :: c ++ ['~']
  | .verbatim v => '=' :: v ++ ['=']
  | .link kind desc =>
    "[[".toList ++ render_link_target kind ++
    (match desc with
     | some d => "][".toList ++ render_rich_text d
     | none => []) ++ "]]".toList
  | .target t => "<<".toList ++ t ++ ">>".toList
  | .footnoteRef label => "[fn:".toList ++ label ++ [']']
  | .entity e => e
  | .unknown _ raw => raw

/-- Rust `render_rich_text` (the loop over inline nodes). -/
def render_rich_text : List Inline → Str
  | [] => []
  | x :: r => render_inline x ++ render_rich_text r
end

/-- Prefix every rendered quote line with `"> "` (inner loop of the
`Block::Quote` case of Rust `render_block`). -/
def quoteLines (ls : List Str) : Str :=
  (ls.map (fun l => "> ".toList ++ l ++ ['\n'])).flatten

mutual
/-- Rust `render_block`: canonical text for one block (used only when a
cached source range is unavailable). -/
def render_block : Block → Str
  | .paragraph text => render_rich_text text.inlines ++ ['\n']
  | .list kind items => render_items kind items
  | .quote blocks => render_quote_blocks blocks
  | .exampleBlock raw =>
    "#+BEGIN_EXAMPLE\n".toList ++ raw ++
    (if raw.getLast? = some '\n' then [] else ['\n']) ++ "#+END_EXAMPLE\n".toList
  | .srcBlock language parameters code =>
    "#+BEGIN_SRC".toList ++
    (match language with | some l => ' ' :: l | none => []) ++
    (parameters.map (fun p => ' ' :: p.1 ++ ['='] ++ p.2)).flatten ++ ['\n'] ++
    code ++ (if code.getLast? = some '\n' then [] else ['\n']) ++
    "#+END_SRC\n".toList
  | .drawer name content =>
    ':' :: name ++ ":\n".toList ++ render_drawer_content content ++ ":END:\n".toList
  | .table raw =>
    (raw.map (fun line => line ++ (if line.getLast? = some '\n' then [] else ['\n']))).flatten
  | .horizontalRule => "-----\n".toList
  | .comment text => text ++ ['\n']
  | .directive key value => "#+".toList ++ key ++ ": ".toList ++ value ++ ['\n']
  | .unknown _ raw => raw ++ (if raw.getLast? = some '\n' then [] else ['\n'])

/-- The `Quote` case's loop over blocks. -/
def render_quote_blocks : List Block → Str
  | [] => []
  | b :: r => quoteLines (linesOf (render_block b)) ++ render_quote_blocks r

/-- Drawer content loop of Rust `render_block`. -/
def render_drawer_content : List Block → Str
  | [] => []
  | b :: r => render_block b ++ render_drawer_content r

/-- Rust `render_list` (loop over the items). -/
def render_items : ListKind → List ListItem → Str
  | _, [] => []
  | kind, item :: r => render_item kind item ++ render_items kind r

/-- Rust `render_list`, body for a single item. -/
def render_item : ListKind → ListItem → Str
  | kind, .mk label content checkbox _ _ =>
    (match kind with
     | .unordered => "-".toList
     | .ordered => "1.".toList
     | .description => "::".toList) ++ [' '] ++
    (match checkbox with
     | some cb =>
       '[' :: [(match cb with
                | .empty => ' '
                | .partial_ => '-'
                | .checked => 'X')] ++ "] ".toList
     | none => []) ++
    (match label with
     | some l => render_rich_text l.inlines ++ " :: ".toList
     | none => []) ++
    (if content.isEmpty then ['\n'] else render_item_content true content)

/-- Content loop for one list item: the first block is rendered inline
(trailing newlines stripped), later blocks are indented. -/
def render_item_content : Bool → List Block → Str
  | _, [] => []
  | first, b :: r =>
    let rendered := render_block b
    if first then
      (rendered.reverse.dropWhile (fun c => c == '\n')).reverse ++ ['\n'] ++
      render_item_content false r
    else "  ".toList ++ rendered ++ render_item_content false r
end

/-- Rust `render_headline`. -/
def render_headline (heading : Heading) : Str :=
  List.replicate heading.data.level '*' ++ [' '] ++
  (match heading.data.todo with
   | some todo => todo.text ++ [' ']
   | none => []) ++
  (match heading.data.priority with
   | some p => "[#".toList ++ [p] ++ "] ".toList
   | none => []) ++
  render_rich_text heading.data.title.inlines ++
  (if heading.data.tags.isEmpty then []
   else ' ' :: ':' :: (heading.data.tags.map (fun t => t ++ [':'])).flatten) ++
  ['\n']

/-- Rust `render_planning`. -/
def render_planning (plan : Planning) : Str :=
  let parts : List Str :=
    (match plan.scheduled with
     | some ts => ["SCHEDULED: ".toList ++ render_timestamp ts]
     | none => []) ++
    (match plan.deadline with
     | some ts => ["DEADLINE: ".toList ++ render_timestamp ts]
     | none => []) ++
    (match plan.closed with
     | some ts => ["CLOSED: ".toList ++ render_timestamp ts]
     | none => [])
  List.intercalate [' '] parts ++ ['\n']

/-- Rust `render_properties`. -/
def render_properties (props : PropertyDrawer) : Str :=
  ":PROPERTIES:\n".toList ++
  (props.props.map (fun p => ':' :: p.1 ++ ": ".toList ++ p.2 ++ ['\n'])).flatten ++
  ":END:\n".toList

/-- Rust `render_logbook`. -/
def render_logbook (log : Logbook) : Str :=
  ":LOGBOOK:\n".toList ++
  (log.clock.map (fun clock =>
    "CLOCK: ".toList ++ render_timestamp clock.start ++
    (match clock.ends with
     | some e => "--".toList ++ render_timestamp e
     | none => []) ++
    (match clock.minutes with
     | some mins =>
       " => ".toList ++ intToStr (Int.tdiv mins 60) ++ [':'] ++
       (let m := (Int.tmod mins 60).natAbs
        if m < 10 then '0' :: natToStr m else natToStr m)
     | none => []) ++ ['\n'])).flatten ++
  (log.raw.map (fun raw => raw ++ ['\n'])).flatten ++
  ":END:\n".toList

/-- Rust `append_block`: copy the cached slice when both a range and the
original source are available, otherwise synthesize canonically. -/
def append_block (out : Str) (block : BlockWithSource) (source : Option Str) : Str :=
  match block.source, source with
  | some range, some src => out ++ range.slice src
  | _, _ => out ++ render_block block.block

mutual
/-- Rust `format_heading`: headline, planning, properties, logbook (each
verbatim-or-canonical), section blocks, then children.  The heading is
matched against its constructor so that the recursion is structural. -/
def format_heading : Str → Heading → Option Str → Bool → Str
  | out, .mk data children, source, is_root_level =>
    let out := if !is_root_level && !(out.getLast? == some '\n') then out ++ ['\n'] else out
    let out :=
      match data.headline_range, source with
      | some range, some src => out ++ range.slice src
      | some _, none => out ++ render_headline (.mk data children)
      | none, _ => out ++ render_headline (.mk data children)
    let out :=
      match data.planning_range with
      | some range =>
        (match source with
         | some src => out ++ range.slice src
         | none => out)
      | none =>
        if data.planning.scheduled.isSome || data.planning.deadline.isSome ||
           data.planning.closed.isSome then
          out ++ render_planning data.planning
        else out
    let out :=
      match data.properties_range with
      | some range =>
        (match source with
         | some src => out ++ range.slice src
         | none => out)
      | none =>
        if data.properties.props.isEmpty then out
        else out ++ render_properties data.properties
    let out :=
      match data.logbook_range with
      | some range =>
        (match source with
         | some src => out ++ range.slice src
         | none => out)
      | none =>
        if data.logbook.clock.isEmpty && data.logbook.raw.isEmpty then out
        else out ++ render_logbook data.logbook
    let out := data.sec.blocks.foldl (fun o b => append_block o b source) out
    format_children out children source

/-- Child loop of Rust `format_heading`. -/
def format_children : Str → List Heading → Option Str → Str
  | out, [], _ => out
  | out, child :: rest, source => format_children (format_heading out child source false) rest source
end

/-- Rust `format_org_file`. -/
def format_org_file (file : OrgFile) : Str :=
  let source := file.source_text
  let out := file.preamble.foldl (fun o b => append_block o b source) []
  file.headings.foldl (fun o h => format_heading o h source true) out

/- ------------------------------------------------------------------ -/
/- Derived definitions used by the claim statements                   -/
/- ------------------------------------------------------------------ -/

mutual
/-- Rust `RichText::plain_text`, single node. -/
def plain_text_inline : Inline → Str
  | .text t => t
  | .emphasis _ children => plain_text_list children
  | .code t => t
  | .verbatim t => t
  | .link kind desc =>
    (match desc with
     | some d => plain_text_list d
     | none =>
       match kind with
       | .http url => url
       | .file path _ => path
       | .id i => i
       | .custom protocol target => protocol ++ [':'] ++ target)
  | .target t => t
  | .footnoteRef t => t
  | .entity t => t
  | .unknown _ raw => raw

/-- Rust `RichText::plain_text`, node list. -/
def plain_text_list : List Inline → Str
  | [] => []
  | x :: r => plain_text_inline x ++ plain_text_list r
end

/-- Rust `RichText::plain_text`. -/
def RichText.plain_text (rt : RichText) : Str := plain_text_list rt.inlines

/-- Level/plain-title skeleton of a heading tree, for readable statements
about parsed structure. -/
inductive Outline where
  | mk (level : Nat) (title : Str) (children : List Outline)
deriving Repr

mutual
/-- Outline skeleton of one heading. -/
def Heading.outline : Heading → Outline
  | .mk d c => .mk d.level d.title.plain_text (outlineList c)

/-- Outline skeletons of a heading forest. -/
def outlineList : List Heading → List Outline
  | [] => []
  | h :: r => Heading.outline h :: outlineList r
end

/-- Outline forest of a parse outcome. -/
def outlinesOf (p : POut) : Option (List Outline) :=
  match p with
  | .ok f => some (outlineList f.headings)
  | _ => none

/-- Whether an inline list contains two consecutive literal-text nodes. -/
def noTwoTexts : List Inline → Bool
  | .text _ :: .text _ :: _ => false
  | _ :: r => noTwoTexts r
  | [] => true

/-- Successful-parse test on a parse outcome. -/
def POut.isOk : POut → Bool
  | .ok _ => true
  | _ => false

/-- Parse then format, as a single operation on Lean strings (used to state
the round-trip law and its failures). -/
def formatAfterParse (s : String) : Option String :=
  match parseOrg s with
  | .ok f => some (String.mk (format_org_file f))
  | _ => none

/-- Shape of a single-line body line fed to the planning-run statements: it
is nonempty, contains no line breaks, and is not a heading line. -/
def planningLineShape (l : Str) : Bool :=
  !l.isEmpty && l.all (fun c => c != '\n' && c != '\r') && !is_heading_line (l ++ ['\n'])

/-- Concrete parsed headline used by the C10 witness. -/
def c10headline : Heading × Str :=
  (parse_headline "* DONE X\n".toList 9).get (by decide)

/-- Projection: planning of every parsed heading. -/
def headingPlannings (p : POut) : Option (List Planning) :=
  match p with
  | .ok f => some (f.headings.map (fun h => h.data.planning))
  | _ => none

/-- Projection: plain text of every paragraph block of every heading. -/
def sectionTexts (p : POut) : Option (List (List Str)) :=
  match p with
  | .ok f => some (f.headings.map (fun h => h.data.sec.blocks.map
      (fun b => match b.block with
        | .paragraph rt => rt.plain_text
        | _ => [])))
  | _ => none

/-- Insert a freshly constructed (range-free) paragraph block at the front
of the first heading's section, as in the Rust test
`formatter_preserves_context_when_inserting_block`. -/
def insertFrontPara (p : POut) (txt : Str) : Option Str :=
  match p with
  | .ok f =>
    match f.headings with
    | Heading.mk d c :: hs =>
      let inserted := BlockWithSource.new (Block.paragraph ⟨[Inline.text txt]⟩)
      let d' : HeadingData := { d with sec := ⟨inserted :: d.sec.blocks⟩ }
      some (format_org_file { f with headings := Heading.mk d' c :: hs })
    | _ => none
  | _ => none

/-- Literal-text test on an inline node. -/
def isTextB : Inline → Bool
  | .text _ => true
  | _ => false

/-- Adjacency constraint: not both nodes are literal text. -/
def notBothText (a b : Inline) : Prop := (isTextB a && isTextB b) = false

/-- The node update performed by a successful planning line inside the
body loops of `parse_headings_tree` / `parse_headings_at_level`: merge the
`Planning` fields and extend the cached byte range. -/
def planStepNode (base_len i_len line_len newline_len : Nat) (p : Planning)
    (node : Heading) : Heading :=
  let start_offset := base_len - i_len
  let range : SourceRange := ⟨start_offset, start_offset + line_len + newline_len⟩
  node.withData
    { node.data with
      planning := mergePlanning node.data.planning p
      planning_range := extendPlanningRange node.data.planning_range range }

/-- Concatenation of a run of planning lines, each terminated by `\n`. -/
def planLinesStr : List (Str × Planning) → Str
  | [] => []
  | (l, _) :: rest => l ++ '\n' :: planLinesStr rest

/-- The heading obtained after the body loop has consumed a whole run of
planning lines, threading the length of the remaining input. -/
def planFold (base_len : Nat) : Heading → Nat → List (Str × Planning) → Heading
  | node, _, [] => node
  | node, i_len, (l, p) :: rest =>
    planFold base_len (planStepNode base_len i_len l.length 1 p node)
      (i_len - (l.length + 1)) rest

/-- Well-formedness of a planning line paired with its parse result: no
embedded line break, not a heading line, and accepted by the planning field
loop with exactly that result. -/
def planLineOk (lp : Str × Planning) : Prop :=
  (∀ c ∈ lp.1, c ≠ '\n' ∧ c ≠ '\r') ∧
  is_heading_line (lp.1 ++ ['\n']) = false ∧
  planningFieldsGo (lp.1.length + 1) lp.1 Planning.empty false = some lp.2

/-- The heading produced by `parse_headline` on the headline `"* T"` when
`body_len` characters follow the line. -/
def headingT (base_len body_len : Nat) : Heading :=
  (Heading.new 1 ⟨parse_inlines_str ['T']⟩).withData
    { (Heading.new 1 ⟨parse_inlines_str ['T']⟩).data with
      headline_range := some ⟨base_len - (body_len + 4), base_len - body_len⟩ }

/-- Two concrete planning lines: the second overwrites the `SCHEDULED`
field of the first and adds a `DEADLINE`. -/
def planLinesC3 : List (Str × Planning) :=
  [("SCHEDULED: <2025-01-02>".toList,
    ⟨some ⟨true, ⟨2025, 1, 2⟩, none, none, none, none, none⟩, none, none⟩),
   ("SCHEDULED: <2026-07-08> DEADLINE: <2026-09-10>".toList,
    ⟨some ⟨true, ⟨2026, 7, 8⟩, none, none, none, none, none⟩,
     some ⟨true, ⟨2026, 9, 10⟩, none, none, none, none, none⟩, none⟩)]

/-- One concrete planning line for the amended round-trip law. -/
def planLinesC1 : List (Str × Planning) :=
  [("DEADLINE: <2030-12-31>".toList,
    ⟨none, some ⟨true, ⟨2030, 12, 31⟩, none, none, none, none, none⟩, none⟩)]

/- ============================ THEOREMS ============================ -/



/-- Claim C5: the inline parser recognizes `*bold*` emphasis inside a text
run, producing text / bold-emphasis / text with the literal content. -/
theorem claim_C5 :
    parse_inlines_str "A *bold* word".toList =
      [Inline.text "A ".toList,
       Inline.emphasis Emphasis.bold [Inline.text "bold".toList],
       Inline.text " word".toList] := rfl

/-- Claim C1 counterexample: the round-trip law fails on fully-consumed
inputs — a blank line after a preamble paragraph is duplicated, planning
lines are re-emitted right after the headline out of source order, and a
split planning run duplicates the interleaved body text. -/
theorem claim_C1_cex :
    (formatAfterParse "a\n\nb\n" = some "a\n\n\nb\n" ∧ ("a\n\n\nb\n" : String) ≠ "a\n\nb\n") ∧
    (formatAfterParse "* H\nx\nSCHEDULED: <2025-11-15>\n" =
        some "* H\nSCHEDULED: <2025-11-15>\nx\n" ∧
      ("* H\nSCHEDULED: <2025-11-15>\nx\n" : String) ≠ "* H\nx\nSCHEDULED: <2025-11-15>\n") ∧
    (formatAfterParse "* H\nSCHEDULED: <2025-11-15>\nx\nDEADLINE: <2025-11-16>\n" =
        some "* H\nSCHEDULED: <2025-11-15>\nx\nDEADLINE: <2025-11-16>\nx\n" ∧
      ("* H\nSCHEDULED: <2025-11-15>\nx\nDEADLINE: <2025-11-16>\nx\n" : String) ≠
        "* H\nSCHEDULED: <2025-11-15>\nx\nDEADLINE: <2025-11-16>\n") := by
  exact ⟨⟨rfl, by decide⟩, ⟨rfl, by decide⟩, ⟨rfl, by decide⟩⟩

/-- C8 helper: the logbook loop on empty input reproduces its own state. -/
theorem logbookGo_nil_div :
    ∀ (fuel : Nat) (clocks : List ClockEntry) (raw : List Str),
      logbookGo fuel [] clocks raw = .div := by
  intro fuel
  induction fuel with
  | zero => intro clocks raw; rfl
  | succ f ih => intro clocks raw; exact ih clocks (raw ++ [[]])

/-- Claim C8 (code bug): on an unterminated logbook drawer the parser
diverges instead of returning a document or an error. -/
theorem claim_C8 :
    (∀ (fuel : Nat) (clocks : List ClockEntry) (raw : List Str),
        logbookGo fuel [] clocks raw = .div) ∧
    parseOrg "* H\n:LOGBOOK:\nx" = .div :=
  ⟨logbookGo_nil_div, rfl⟩

/-- Claim C7 counterexample: parsing succeeds where the claim predicts a
structural failure. -/
theorem claim_C7_cex :
    (parseOrg "* H\nSCHEDULED: <2025-13-01>\n").isOk = true := rfl



/-- Claim C7 amended: an invalid calendar timestamp (month 13) fails
`from_ymd_opt` and hence the timestamp and planning-line parses, but the
document parse still succeeds, demoting the line to a literal paragraph
with an empty `Planning` — no structural parse failure is raised. -/
theorem claim_C7_amended :
    parse_timestamp "<2025-13-01>".toList = none ∧
    NaiveDate.fromYmdOpt 2025 13 1 = none ∧
    (parseOrg "* H\nSCHEDULED: <2025-13-01>\n").isOk = true ∧
    headingPlannings (parseOrg "* H\nSCHEDULED: <2025-13-01>\n") = some [Planning.empty] ∧
    sectionTexts (parseOrg "* H\nSCHEDULED: <2025-13-01>\n") =
      some [["SCHEDULED: <2025-13-01>".toList]] :=
  ⟨rfl, rfl, rfl, rfl, rfl⟩


/-- Claim C9: inserting a new paragraph block at the front of a heading
section and reformatting yields the new line before the existing body
(canonical rendering for the mutated tree). -/
theorem claim_C9 :
    insertFrontPara (parseOrg "* TODO Task\nParagraph line one\nParagraph line two\n")
        "Inserted note".toList =
      some "* TODO Task\nInserted note\nParagraph line one\nParagraph line two\n".toList :=
  rfl

/-- Claim C10: the structural headline parser always constructs TODO
keywords with `is_done = false`. -/
theorem claim_C10 :
    (∀ (i : Str) (base_len : Nat) (h : Heading) (r : Str) (t : TodoKeyword),
        parse_headline i base_len = some (h, r) → h.data.todo = some t →
        t.is_done = false) ∧
    (parse_headline "* DONE X\n".toList 9).map (fun p => p.1.data.todo) =
      some (some { text := "DONE".toList, is_done := false }) := by
  refine ⟨?_, rfl⟩
  intro i base_len h r t hp ht
  unfold parse_headline at hp
  repeat first
    | exact Option.noConfusion hp
    | split at hp
    | dsimp only at hp
  all_goals
    injection hp with hpPair
  all_goals
    injection hpPair with hpH hpR
  all_goals
    subst hpH
  all_goals
    dsimp only [Heading.withData, Heading.new, Heading.data] at ht
  all_goals
    obtain ⟨a, _, hfa⟩ := Option.map_eq_some'.mp ht
  all_goals
    exact hfa ▸ rfl

/-- Claim C6: link-target classification. -/
theorem claim_C6 :
    (∀ t : Str,
        ("http://".toList <+: rustTrim t ∨ "https://".toList <+: rustTrim t) →
        link_kind_from_target t = .http (rustTrim t)) ∧
    (∀ t : Str, "id:".toList <+: rustTrim t →
        link_kind_from_target t = .id ((rustTrim t).drop 3)) ∧
    (∀ t : Str, "file:".toList <+: rustTrim t →
        link_kind_from_target t =
          (match splitOnceSub "::".toList ((rustTrim t).drop 5) with
           | some (path, search) => .file path (some search)
           | none => .file ((rustTrim t).drop 5) none)) ∧
    (∀ t : Str,
        ¬ "http://".toList <+: rustTrim t →
        ¬ "https://".toList <+: rustTrim t →
        ¬ "id:".toList <+: rustTrim t →
        ¬ "file:".toList <+: rustTrim t →
        ':' ∈ rustTrim t →
        link_kind_from_target t =
          (match splitOnceSub [':'] (rustTrim t) with
           | some (proto, rest) => .custom proto rest
           | none => .file (rustTrim t) none)) ∧
    (∀ t : Str, ':' ∉ rustTrim t →
        link_kind_from_target t = .file (rustTrim t) none) ∧
    parse_inlines_str "[[https://example.com][site]]".toList =
      [Inline.link (.http "https://example.com".toList) (some [Inline.text "site".toList])] := by
  have disj : ∀ (p1 p2 s : Str), p1 <+: s → p2 <+: s → p1.length ≤ p2.length → p1 <+: p2 :=
    fun _ _ _ h1 h2 hl => List.prefix_of_prefix_length_le h1 h2 hl
  refine ⟨?_, ?_, ?_, ?_, ?_, rfl⟩
  · intro t h
    simp at h
    simp [link_kind_from_target, h]
  · intro t h
    have hh : ¬ "http://".toList <+: rustTrim t := fun hc =>
      absurd (disj "id:".toList "http://".toList (rustTrim t) h hc (by decide)) (by decide)
    have hhs : ¬ "https://".toList <+: rustTrim t := fun hc =>
      absurd (disj "id:".toList "https://".toList (rustTrim t) h hc (by decide)) (by decide)
    simp at h hh hhs
    simp [link_kind_from_target, h, hh, hhs]
  · intro t h
    have hh : ¬ "http://".toList <+: rustTrim t := fun hc =>
      absurd (disj "file:".toList "http://".toList (rustTrim t) h hc (by decide)) (by decide)
    have hhs : ¬ "https://".toList <+: rustTrim t := fun hc =>
      absurd (disj "file:".toList "https://".toList (rustTrim t) h hc (by decide)) (by decide)
    have hid : ¬ "id:".toList <+: rustTrim t := fun hc =>
      absurd (disj "id:".toList "file:".toList (rustTrim t) hc h (by decide)) (by decide)
    simp at h hh hhs hid
    simp [link_kind_from_target, h, hh, hhs, hid]
  · intro t hh hhs hid hfile hcol
    simp at hh hhs hid hfile
    simp [link_kind_from_target, hh, hhs, hid, hfile, hcol]
  · intro t hcol
    have hno : ∀ p : Str, ':' ∈ p → ¬ p <+: rustTrim t := by
      intro p hcp hc
      obtain ⟨u, hu⟩ := hc
      exact hcol (hu ▸ List.mem_append_left u hcp)
    have h1 := hno "http://".toList (by decide)
    have h2 := hno "https://".toList (by decide)
    have h3 := hno "id:".toList (by decide)
    have h4 := hno "file:".toList (by decide)
    simp at h1 h2 h3 h4
    simp [link_kind_from_target, h1, h2, h3, h4, hcol]

/-- Claim C6 witness: the classification cases applied at concrete
targets. -/
theorem claim_C6_witness :
    link_kind_from_target "https://example.com".toList = .http "https://example.com".toList ∧
    link_kind_from_target "id:abc".toList = .id "abc".toList ∧
    link_kind_from_target "file:notes.org::tgt".toList =
      .file "notes.org".toList (some "tgt".toList) ∧
    link_kind_from_target "mailto:user@host".toList =
      .custom "mailto".toList "user@host".toList ∧
    link_kind_from_target "notes-org".toList = .file "notes-org".toList none :=
  ⟨claim_C6.1 _ (by decide),
   claim_C6.2.1 _ (by decide),
   claim_C6.2.2.1 _ (by decide),
   claim_C6.2.2.2.1 _ (by decide) (by decide) (by decide) (by decide) (by decide),
   claim_C6.2.2.2.2.1 _ (by decide)⟩



theorem notBothText_flip : ∀ a b, notBothText a b → flip notBothText a b := by
  intro a b h
  unfold flip notBothText at *
  cases ha : isTextB a <;> cases hb : isTextB b <;> simp_all

theorem noTwoTexts_iff_chain : ∀ l : List Inline,
    noTwoTexts l = true ↔ List.Chain' notBothText l := by
  intro l
  induction l with
  | nil => simp [noTwoTexts]
  | cons a l ih =>
    cases l with
    | nil => cases a <;> simp [noTwoTexts, notBothText, isTextB]
    | cons b r =>
      rw [List.chain'_cons]
      cases a <;> cases b <;>
        simp [noTwoTexts, notBothText, isTextB] at ih ⊢ <;> exact ih

theorem coalesce_go_sound : ∀ (xs acc : List Inline),
    List.Chain' notBothText acc →
    List.Chain' notBothText (coalesce_text.go acc xs) := by
  intro xs
  induction xs with
  | nil =>
    intro acc hacc
    unfold coalesce_text.go
    rw [List.chain'_reverse]
    exact hacc.imp notBothText_flip
  | cons x rest ih =>
    intro acc hacc
    have hpush : ∀ (x' : Inline) (acc' : List Inline), List.Chain' notBothText acc' →
        (∀ y ∈ acc'.head?, notBothText x' y) →
        List.Chain' notBothText (coalesce_text.go (x' :: acc') rest) :=
      fun _ acc' h hc => ih _ (List.chain'_cons'.mpr ⟨hc, h⟩)
    have hmerge : ∀ (p s : Str) (accRest : List Inline),
        List.Chain' notBothText (Inline.text p :: accRest) →
        List.Chain' notBothText (coalesce_text.go (Inline.text (p ++ s) :: accRest) rest) := by
      intro p s accRest h
      apply ih
      rw [List.chain'_cons'] at h ⊢
      refine ⟨?_, h.2⟩
      intro y hy
      have hpy := h.1 y hy
      unfold notBothText isTextB at hpy ⊢
      cases y <;> simp_all
    cases acc with
    | nil =>
      cases x <;>
        (refine hpush _ _ hacc ?_
         intro y hy
         exact absurd hy (by simp))
    | cons hd tl =>
      cases hd <;> cases x <;>
        first
          | exact hmerge _ _ _ hacc
          | (refine hpush _ _ hacc ?_
             intro y hy
             simp only [List.head?, Option.mem_def, Option.some.injEq] at hy
             subst hy
             simp [notBothText, isTextB])

theorem tagP_some {pat i r : Str} (h : tagP pat i = some r) :
    r = i.drop pat.length ∧ pat.length ≤ i.length := by
  unfold tagP at h
  split at h
  · next hp =>
    injection h with h
    exact ⟨h.symm, (List.isPrefixOf_iff_prefix.mp hp).length_le⟩
  · exact Option.noConfusion h

theorem tagP_length {pat i r : Str} (h : tagP pat i = some r) (hne : pat ≠ []) :
    r.length < i.length := by
  obtain ⟨rfl, hle⟩ := tagP_some h
  have : 0 < pat.length := List.length_pos.mpr hne
  rw [List.length_drop]
  omega

theorem charP_length {c : Char} {i r : Str} (h : charP c i = some r) :
    r.length + 1 = i.length := by
  cases i with
  | nil => exact Option.noConfusion h
  | cons c' rest =>
    simp only [charP] at h
    split at h
    · injection h with h; subst h; rfl
    · exact Option.noConfusion h

theorem dropWhile_length_le (p : Char → Bool) (l : List Char) :
    (l.dropWhile p).length ≤ l.length := by
  have h2 := congrArg List.length (List.takeWhile_append_dropWhile (p := p) (l := l))
  rw [List.length_append] at h2
  omega

theorem takeWhile1P_spec {p : Char → Bool} {i t r : Str}
    (h : takeWhile1P p i = some (t, r)) : t ≠ [] ∧ t ++ r = i := by
  unfold takeWhile1P takeWhileP at h
  rcases htw : i.takeWhile p with _ | ⟨c, cs⟩ <;> rw [htw] at h
  · exact Option.noConfusion h
  · injection h with h
    injection h with h1 h2
    subst h1
    subst h2
    refine ⟨by simp, ?_⟩
    rw [← htw]
    exact List.takeWhile_append_dropWhile (p := p) (l := i)

theorem takeWhile1P_length {p : Char → Bool} {i t r : Str}
    (h : takeWhile1P p i = some (t, r)) : r.length < i.length := by
  obtain ⟨hne, hsum⟩ := takeWhile1P_spec h
  have h0 : 0 < t.length := List.length_pos.mpr hne
  have hlen := congrArg List.length hsum
  rw [List.length_append] at hlen
  omega

theorem space0P_length (i : Str) : (space0P i).length ≤ i.length :=
  dropWhile_length_le _ _

theorem space1P_length {i r : Str} (h : space1P i = some r) : r.length < i.length := by
  unfold space1P at h
  split at h
  · next heq =>
    injection h with h
    subst h
    exact takeWhile1P_length heq
  · exact Option.noConfusion h

theorem takeUntilP_spec {pat i a b : Str} (h : takeUntilP pat i = some (a, b)) :
    a ++ b = i := by
  induction i generalizing a with
  | nil =>
    unfold takeUntilP at h
    split at h
    · injection h with h; injection h with h1 h2; subst h1; subst h2; rfl
    · exact Option.noConfusion h
  | cons c rest ih =>
    unfold takeUntilP at h
    split at h
    · injection h with h; injection h with h1 h2; subst h1; subst h2; rfl
    · dsimp only at h
      rcases hrec : takeUntilP pat rest with _ | ⟨a', b'⟩ <;> rw [hrec] at h
      · exact Option.noConfusion h
      · injection h with h
        injection h with h1 h2
        subst h1
        subst h2
        simpa using ih hrec

theorem takeUntilP_length {pat i a b : Str} (h : takeUntilP pat i = some (a, b)) :
    b.length ≤ i.length := by
  have hl := congrArg List.length (takeUntilP_spec h)
  rw [List.length_append] at hl
  omega

theorem anycharP_length {i r : Str} {c : Char} (h : anycharP i = some (c, r)) :
    r.length + 1 = i.length := by
  cases i with
  | nil => exact Option.noConfusion h
  | cons c' rest =>
    injection h with h
    injection h with h1 h2
    subst h2
    rfl

theorem notLineEndingP_spec {i t r : Str} (h : notLineEndingP i = some (t, r)) :
    r = i.dropWhile (fun c => c != '\x0d' && c != '\n') := by
  unfold notLineEndingP at h
  dsimp only at h
  split at h
  · next heq =>
    split at h
    · injection h with h
      injection h with h1 h2
      exact h2.symm
    · exact Option.noConfusion h
  · injection h with h
    injection h with h1 h2
    exact h2.symm

theorem notLineEndingP_length {i t r : Str} (h : notLineEndingP i = some (t, r)) :
    r.length ≤ i.length := by
  rw [notLineEndingP_spec h]
  exact dropWhile_length_le _ _

theorem autolinkScheme_length {i scheme r : Str} (h : autolinkScheme i = some (scheme, r)) :
    r.length < i.length := by
  unfold autolinkScheme at h
  repeat
    first
      | exact Option.noConfusion h
      | (split at h
         case _ heq =>
           injection h with h
           injection h with h1 h2
           subst h2
           exact tagP_length heq (by simp))

theorem parse_autolink_length {i : Str} {node : Inline} {rest : Str}
    (h : parse_autolink i = some (node, rest)) : rest.length < i.length := by
  unfold parse_autolink at h
  split at h
  · exact Option.noConfusion h
  · next scheme i1 heq =>
    split at h
    · exact Option.noConfusion h
    · next rtext i2 heq2 =>
      injection h with h
      injection h with h1 h2
      subst h2
      exact lt_trans (takeWhile1P_length heq2) (autolinkScheme_length heq)

theorem parse_code_like_length {delim : Char} {make : Str → Inline} {i : Str}
    {node : Inline} {rest : Str} (h : parse_code_like delim make i = some (node, rest)) :
    rest.length < i.length := by
  unfold parse_code_like at h
  split at h
  · exact Option.noConfusion h
  · next i1 heq1 =>
    split at h
    · exact Option.noConfusion h
    · next body i2 heq2 =>
      split at h
      · exact Option.noConfusion h
      · next i3 heq3 =>
        injection h with h
        injection h with h1 h2
        subst h2
        have l3 := charP_length heq3
        have l2 := takeWhile1P_length heq2
        have l1 := charP_length heq1
        omega

theorem parse_target_inline_length {i : Str} {node : Inline} {rest : Str}
    (h : parse_target_inline i = some (node, rest)) : rest.length < i.length := by
  unfold parse_target_inline at h
  split at h
  · exact Option.noConfusion h
  · next i1 heq1 =>
    split at h
    · exact Option.noConfusion h
    · next name i2 heq2 =>
      split at h
      · exact Option.noConfusion h
      · next i3 heq3 =>
        injection h with h
        injection h with h1 h2
        subst h2
        have l1 := tagP_length heq1 (by simp)
        have l2 := takeUntilP_length heq2
        have l3 := tagP_length heq3 (by simp)
        omega

theorem parse_footnote_ref_length {i : Str} {node : Inline} {rest : Str}
    (h : parse_footnote_ref i = some (node, rest)) : rest.length < i.length := by
  unfold parse_footnote_ref at h
  split at h
  · exact Option.noConfusion h
  · next i1 heq1 =>
    split at h
    · exact Option.noConfusion h
    · next label i2 heq2 =>
      split at h
      · exact Option.noConfusion h
      · next i3 heq3 =>
        injection h with h
        injection h with h1 h2
        subst h2
        have l1 := tagP_length heq1 (by simp)
        have l2 := takeUntilP_length heq2
        have l3 := charP_length heq3
        omega

theorem parse_entity_inline_length {i : Str} {node : Inline} {rest : Str}
    (h : parse_entity_inline i = some (node, rest)) : rest.length < i.length := by
  unfold parse_entity_inline at h
  split at h
  · exact Option.noConfusion h
  · next i1 heq1 =>
    split at h
    · exact Option.noConfusion h
    · next ident i2 heq2 =>
      injection h with h
      injection h with h1 h2
      subst h2
      have l1 := charP_length heq1
      have l2 := takeWhile1P_length heq2
      omega

theorem parse_text_chunk_length {i : Str} {node : Inline} {rest : Str}
    (h : parse_text_chunk i = some (node, rest)) : rest.length < i.length := by
  unfold parse_text_chunk at h
  split at h
  · exact Option.noConfusion h
  · next s r heq =>
    injection h with h
    injection h with h1 h2
    subst h2
    exact takeWhile1P_length heq

theorem inline_mutual_progress : ∀ fuel : Nat,
    (∀ i node rest, inline_atom fuel i = some (node, rest) → rest.length < i.length) ∧
    (∀ stop i v rem, parse_inlines_until fuel stop i = some (v, rem) →
      rem.length ≤ i.length) ∧
    (∀ delim kind i node rest, parse_emph_with fuel delim kind i = some (node, rest) →
      rest.length < i.length) ∧
    (∀ i node rest, parse_link_bracketed fuel i = some (node, rest) →
      rest.length < i.length) := by
  intro fuel
  induction fuel with
  | zero =>
    refine ⟨?_, ?_, ?_, ?_⟩
    · intro i node rest h; exact Option.noConfusion h
    · intro stop i v rem h; exact Option.noConfusion h
    · intro delim kind i node rest h; exact Option.noConfusion h
    · intro i node rest h; exact Option.noConfusion h
  | succ f ih =>
    obtain ⟨ihAtom, ihUntil, ihEmph, ihLink⟩ := ih
    refine ⟨?_, ?_, ?_, ?_⟩
    · intro i node rest h
      unfold inline_atom at h
      split at h
      · next res heq =>
        injection h with h
        subst h
        exact ihLink _ _ _ heq
      · 
        split at h
        · next res heq =>
          injection h with h
          subst h
          exact parse_target_inline_length heq
        · 
          split at h
          · next res heq =>
            injection h with h
            subst h
            exact parse_footnote_ref_length heq
          · 
            split at h
            · next res heq =>
              injection h with h
              subst h
              exact parse_code_like_length heq
            · 
              split at h
              · next res heq =>
                injection h with h
                subst h
                exact parse_code_like_length heq
              · 
                split at h
                · next res heq =>
                  injection h with h
                  subst h
                  exact ihEmph _ _ _ _ _ heq
                · 
                  split at h
                  · next res heq =>
                    injection h with h
                    subst h
                    exact ihEmph _ _ _ _ _ heq
                  · 
                    split at h
                    · next res heq =>
                      injection h with h
                      subst h
                      exact ihEmph _ _ _ _ _ heq
                    · 
                      split at h
                      · next res heq =>
                        injection h with h
                        subst h
                        exact ihEmph _ _ _ _ _ heq
                      · 
                        split at h
                        · next res heq =>
                          injection h with h
                          subst h
                          exact parse_autolink_length heq
                        · 
                          split at h
                          · next res heq =>
                            injection h with h
                            subst h
                            exact parse_entity_inline_length heq
                          · exact parse_text_chunk_length h
    · intro stop i v rem h
      cases i with
      | nil => exact Option.noConfusion h
      | cons c r =>
        unfold parse_inlines_until at h
        split at h
        · injection h with h
          injection h with h1 h2
          subst h2
          exact le_refl _
        · split at h
          · next node' rest' hat =>
            split at h
            · next v' rem' hrec =>
              injection h with h
              injection h with h1 h2
              subst h2
              have hb := ihUntil _ _ _ _ hrec
              have ha := ihAtom _ _ _ hat
              omega
            · exact Option.noConfusion h
          · split at h
            · next v' rem' hrec =>
              injection h with h
              injection h with h1 h2
              subst h2
              have hb := ihUntil _ _ _ _ hrec
              simp only [List.length_cons]
              omega
            · exact Option.noConfusion h
    · intro delim kind i node rest h
      unfold parse_emph_with at h
      split at h
      · exact Option.noConfusion h
      · next i1 heq1 =>
        split at h
        · exact Option.noConfusion h
        · split at h
          · exact Option.noConfusion h
          · next children i2 hrec =>
            split at h
            · exact Option.noConfusion h
            · next i3 heq3 =>
              injection h with h
              injection h with h1 h2
              subst h2
              have l1 := charP_length heq1
              have l2 := ihUntil _ _ _ _ hrec
              have l3 := charP_length heq3
              omega
    · intro i node rest h
      unfold parse_link_bracketed at h
      split at h
      · exact Option.noConfusion h
      · next i1 heq1 =>
        have l1 := tagP_length heq1 (by simp)
        split at h
        · next target i2 heq2 =>
          have l2 := takeUntilP_length heq2
          split at h
          · exact Option.noConfusion h
          · next i3 heq3 =>
            have l3 := tagP_length heq3 (by simp)
            split at h
            · exact Option.noConfusion h
            · next descRaw i4 heq4 =>
              have l4 := takeUntilP_length heq4
              split at h
              · exact Option.noConfusion h
              · next i5 heq5 =>
                have l5 := tagP_length heq5 (by simp)
                injection h with h
                injection h with h1 h2
                subst h2
                omega
        · split at h
          · exact Option.noConfusion h
          · next target i2 heq2 =>
            have l2 := takeUntilP_length heq2
            split at h
            · exact Option.noConfusion h
            · next i3 heq3 =>
              have l3 := tagP_length heq3 (by simp)
              injection h with h
              injection h with h1 h2
              subst h2
              omega

theorem parse_inlines_fuel_total : ∀ (fuel : Nat) (s : Str), s.length < fuel →
    ∃ v, parse_inlines_fuel fuel s = some (v, []) := by
  intro fuel
  induction fuel with
  | zero => intro s hs; omega
  | succ f ih =>
    intro s hs
    cases s with
    | nil => exact ⟨[], rfl⟩
    | cons c r =>
      rcases hat : inline_atom f (c :: r) with _ | ⟨node, rest⟩
      · have hr : r.length < f := by
          simp only [List.length_cons] at hs
          omega
        obtain ⟨v, hv⟩ := ih r hr
        refine ⟨.text [c] :: v, ?_⟩
        simp only [parse_inlines_fuel, hat, hv]
      · have hprog := (inline_mutual_progress f).1 _ _ _ hat
        have hrest : rest.length < f := by
          simp only [List.length_cons] at hs hprog
          omega
        obtain ⟨v, hv⟩ := ih rest hrest
        refine ⟨node :: v, ?_⟩
        simp only [parse_inlines_fuel, hat, hv]

theorem parse_inlines_fuel_consumes : ∀ (fuel : Nat) (s v rest : _),
    parse_inlines_fuel fuel s = some (v, rest) → rest = [] := by
  intro fuel
  induction fuel with
  | zero => intro s v rest h; exact Option.noConfusion h
  | succ f ih =>
    intro s v rest h
    cases s with
    | nil =>
      injection h with h
      injection h with h1 h2
      exact h2.symm
    | cons c r =>
      unfold parse_inlines_fuel at h
      split at h
      · split at h
        · next hrec =>
          injection h with h
          injection h with h1 h2
          subst h2
          exact ih _ _ _ hrec
        · exact Option.noConfusion h
      · split at h
        · next hrec =>
          injection h with h
          injection h with h1 h2
          subst h2
          exact ih _ _ _ hrec
        · exact Option.noConfusion h

/-- Claim C4: the inline parser is total — with the fuel used by
`parse_inlines_str` it succeeds on every input and consumes it entirely, any
successful run consumes the whole input, a character rejected by every
construct becomes a one-character literal-text token, and the coalescing
post-pass leaves no two consecutive literal-text nodes. -/
theorem claim_C4 :
    (∀ s : Str, ∃ v, parse_inlines_fuel (inlineFuel s) s = some (v, [])) ∧
    (∀ (fuel : Nat) (s v rest : _), parse_inlines_fuel fuel s = some (v, rest) → rest = []) ∧
    (∀ (fuel : Nat) (c : Char) (r : Str), inline_atom fuel (c :: r) = none →
        parse_inlines_fuel (fuel + 1) (c :: r) =
          match parse_inlines_fuel fuel r with
          | some (v, rem) => some (Inline.text [c] :: v, rem)
          | none => none) ∧
    (∀ s : Str, noTwoTexts (parse_inlines_str s) = true) := by
  refine ⟨?_, parse_inlines_fuel_consumes, ?_, ?_⟩
  · intro s
    exact parse_inlines_fuel_total (inlineFuel s) s (by unfold inlineFuel; omega)
  · intro fuel c r hat
    simp only [parse_inlines_fuel, hat]
  · intro s
    have hcoal : ∀ xs, noTwoTexts (coalesce_text xs) = true := by
      intro xs
      rw [noTwoTexts_iff_chain]
      exact coalesce_go_sound xs [] List.chain'_nil
    unfold parse_inlines_str parse_inlines_str_fuel
    split
    · rfl
    · split
      · exact hcoal _
      · rfl

/-- Claim C4 witness: the one-character fallback conjunct applied at the
concrete input `"h"` (no inline construct starts at `'h'`). -/
theorem claim_C4_witness :
    inline_atom 5 ['h'] = none ∧
    parse_inlines_fuel 6 ['h'] =
      (match parse_inlines_fuel 5 [] with
       | some (v, rem) => some (Inline.text ['h'] :: v, rem)
       | none => none) :=
  ⟨rfl, claim_C4.2.2.1 5 'h' [] rfl⟩

/-- Claim C10 witness: the universal part applied at `"* DONE X\n"`. -/
theorem claim_C10_witness :
    parse_headline "* DONE X\n".toList 9 = some (c10headline.1, c10headline.2) ∧
    ({ text := "DONE".toList, is_done := false } : TodoKeyword).is_done = false :=
  ⟨rfl, claim_C10.1 "* DONE X\n".toList 9 c10headline.1 c10headline.2
      { text := "DONE".toList, is_done := false } rfl rfl⟩

/- ------------------------------------------------------------------ -/
/- Line-boundary stability toolkit                                    -/
/- ------------------------------------------------------------------ -/

theorem drop_takeWhile_length (p : Char → Bool) (l : Str) :
    l.drop (l.takeWhile p).length = l.dropWhile p := by
  induction l with
  | nil => rfl
  | cons c l' ih =>
    by_cases hc : p c = true
    · simp [List.takeWhile_cons, List.dropWhile_cons, hc, ih]
    · have hc' : p c = false := by revert hc; cases p c <;> simp
      simp [List.takeWhile_cons, List.dropWhile_cons, hc']

theorem takeWhile_append_of_all {p : Char → Bool} {l : Str} (s : Str)
    (h : ∀ c ∈ l, p c = true) :
    (l ++ s).takeWhile p = l ++ s.takeWhile p ∧ (l ++ s).dropWhile p = s.dropWhile p := by
  induction l with
  | nil => exact ⟨rfl, rfl⟩
  | cons c l' ih =>
    have hc : p c = true := h c (by simp)
    have ih' := ih (fun c hc => h c (by simp [hc]))
    refine ⟨?_, ?_⟩ <;>
      simp [List.takeWhile_cons, List.dropWhile_cons, hc, ih'.1, ih'.2]

theorem takeWhile_boundary {p : Char → Bool} {x : Char} (hx : p x = false) (l s : Str) :
    (l ++ x :: s).takeWhile p = (l ++ [x]).takeWhile p ∧
    (l ++ x :: s).dropWhile p = (l ++ [x]).dropWhile p ++ s ∧
    (l ++ [x]).dropWhile p ≠ [] := by
  induction l with
  | nil => simp [List.takeWhile_cons, List.dropWhile_cons, hx]
  | cons c l' ih =>
    by_cases hc : p c = true
    · refine ⟨?_, ?_, ?_⟩ <;>
        simp [List.takeWhile_cons, List.dropWhile_cons, hc, ih.1, ih.2.1, ih.2.2]
    · have hc' : p c = false := by revert hc; cases p c <;> simp
      refine ⟨?_, ?_, ?_⟩ <;>
        simp [List.takeWhile_cons, List.dropWhile_cons, hc']

theorem count_stars_boundary (l s : Str) :
    count_stars (l ++ '\n' :: s) = count_stars (l ++ ['\n']) := by
  unfold count_stars
  rw [(takeWhile_boundary (p := fun c => c == '*') (x := '\n') (by decide) l s).1]

theorem match_space_head (d : Char) (t1 t2 : Str) :
    (match d :: t1 with | ' ' :: _ => true | _ => false) =
    (match d :: t2 with | ' ' :: _ => true | _ => false) := by
  by_cases hd : d = ' '
  · subst hd; rfl
  · have h1 : ∀ t : Str, (match d :: t with | ' ' :: _ => true | _ => false) = false := by
      intro t
      split
      · next heq =>
        injection heq with h1 _
        exact absurd h1 hd
      · rfl
    rw [h1, h1]

theorem is_heading_line_boundary (l s : Str) :
    is_heading_line (l ++ '\n' :: s) = is_heading_line (l ++ ['\n']) := by
  unfold is_heading_line
  dsimp only
  obtain ⟨ht, hd, hne⟩ := takeWhile_boundary (p := fun c => c == '*') (x := '\n') (by decide) l s
  rw [drop_takeWhile_length, drop_takeWhile_length, ht, hd]
  rcases hD : (l ++ ['\n']).dropWhile (fun c => c == '*') with _ | ⟨d, D'⟩
  · exact absurd hD hne
  · rw [List.cons_append]
    rw [match_space_head d (D' ++ s) D']

theorem tagP_append_of_prefix {pat l : Str} (s : Str) (h : pat <+: l) :
    tagP pat (l ++ s) = some (l.drop pat.length ++ s) := by
  unfold tagP
  have hb : pat.isPrefixOf (l ++ s) = true :=
    List.isPrefixOf_iff_prefix.mpr (h.trans (List.prefix_append l s))
  rw [hb]
  simp only [if_true]
  rw [List.drop_append_of_le_length h.length_le]

theorem tagP_boundary_none {pat l : Str} (s : Str) (hpat : '\n' ∉ pat)
    (h : ¬ pat <+: l) : tagP pat (l ++ '\n' :: s) = none := by
  unfold tagP
  have hc : ¬ pat <+: (l ++ '\n' :: s) := by
    intro hp
    rcases le_or_lt pat.length l.length with hle | hlt
    · exact h (List.prefix_of_prefix_length_le hp (List.prefix_append l _) hle)
    · have hlp : l <+: pat :=
        List.prefix_of_prefix_length_le (List.prefix_append l _) hp (le_of_lt hlt)
      obtain ⟨rest', rfl⟩ := hlp
      have hne : rest' ≠ [] := by
        intro h0
        subst h0
        simp at hlt
      have h3 : rest' <+: '\n' :: s := (List.prefix_append_right_inj l).mp hp
      rcases rest' with _ | ⟨c, r'⟩
      · exact hne rfl
      · obtain ⟨t, ht⟩ := h3
        injection ht with h4 _
        exact hpat (by simp [h4])
  have hb : pat.isPrefixOf (l ++ '\n' :: s) = false := by
    rw [← Bool.not_eq_true, List.isPrefixOf_iff_prefix]
    exact hc
  rw [hb]
  simp

theorem till_eol_boundary {l : Str} (s : Str)
    (hl : ∀ c ∈ l, c ≠ '\n' ∧ c ≠ '\r') :
    till_eol (l ++ '\n' :: s) = some (l, s) := by
  unfold till_eol notLineEndingP
  dsimp only
  obtain ⟨ht, hd⟩ := takeWhile_append_of_all (p := fun c => c != '\r' && c != '\n')
    ('\n' :: s) (fun c hc => by
      obtain ⟨h1, h2⟩ := hl c hc
      simp [h1, h2])
  rw [ht, hd]
  simp [List.takeWhile_cons, List.dropWhile_cons, lineEndingP]

theorem parse_planning_line_line {l : Str}
    (hl : ∀ c ∈ l, c ≠ '\n' ∧ c ≠ '\r') :
    parse_planning_line (l ++ ['\n']) =
      (planningFieldsGo (l.length + 1) l Planning.empty false).map
        (fun p => ((p, l.length, 1), ([] : Str))) := by
  unfold parse_planning_line
  rw [show (l ++ ['\n'] : Str) = l ++ '\n' :: [] from rfl, till_eol_boundary [] hl]
  rcases hfg : planningFieldsGo (l.length + 1) l Planning.empty false with _ | p
  · simp [hfg]
  · simp [hfg, List.length_append]

theorem parse_planning_line_boundary {l : Str} (s : Str)
    (hl : ∀ c ∈ l, c ≠ '\n' ∧ c ≠ '\r') :
    parse_planning_line (l ++ '\n' :: s) =
      (planningFieldsGo (l.length + 1) l Planning.empty false).map
        (fun p => ((p, l.length, 1), s)) := by
  unfold parse_planning_line
  rw [till_eol_boundary s hl]
  rcases hfg : planningFieldsGo (l.length + 1) l Planning.empty false with _ | p
  · simp [hfg]
  · simp [hfg, List.length_append]
    omega

theorem withData_data (h : Heading) (d : HeadingData) : (h.withData d).data = d := by
  cases h
  rfl

theorem headingBodyGo_succ (fuel base_len level : Nat) (node : Heading)
    (para_start : Option Str) (para_lines : List Str) (i : Str) :
    headingBodyGo (fuel + 1) base_len level node para_start para_lines i =
      (
        if i.isEmpty then
          .ok (flush_section_paragraph node para_start para_lines i base_len).1 i
        else
          if is_heading_line i then
            let fl := flush_section_paragraph node para_start para_lines i base_len
            let node1 := fl.1
            let ps1 := fl.2.1
            let pl1 := fl.2.2
            let next_level := count_stars i % 256
            if level < next_level then
              match parse_headings_at_level fuel base_len i next_level with
              | .ok children r2 =>
                headingBodyGo fuel base_len level (node1.addChildren children) ps1 pl1 r2
              | .err f => .err f
              | .div => .div
            else .ok node1 i
          else
          match parse_planning_line i with
          | some ((p, line_len, newline_len), r2) =>
            let fl := flush_section_paragraph node para_start para_lines i base_len
            let node1 := fl.1
            let ps1 := fl.2.1
            let pl1 := fl.2.2
            let start_offset := base_len - i.length
            let range : SourceRange := ⟨start_offset, start_offset + line_len + newline_len⟩
            let d := node1.data
            let node2 := node1.withData
              { d with planning := mergePlanning d.planning p
                       planning_range := extendPlanningRange d.planning_range range }
            headingBodyGo fuel base_len level node2 ps1 pl1 r2
          | none =>
          match parse_properties_drawer i with
          | .ok pd r2 =>
            let fl := flush_section_paragraph node para_start para_lines i base_len
            let node1 := fl.1
            let ps1 := fl.2.1
            let pl1 := fl.2.2
            let range := range_from base_len i r2
            let node2 := node1.withData
              { node1.data with properties := pd, properties_range := some range }
            headingBodyGo fuel base_len level node2 ps1 pl1 r2
          | .div => .div
          | .err _ =>
          match parse_logbook_drawer i with
          | .ok (clock, rawLines) r2 =>
            let fl := flush_section_paragraph node para_start para_lines i base_len
            let node1 := fl.1
            let ps1 := fl.2.1
            let pl1 := fl.2.2
            let range := range_from base_len i r2
            let node2 := node1.withData
              { node1.data with
                logbook := { node1.data.logbook with clock := clock, raw := rawLines }
                logbook_range := some range }
            headingBodyGo fuel base_len level node2 ps1 pl1 r2
          | .div => .div
          | .err _ =>
          match parse_generic_drawer i with
          | .ok (name, content) r2 =>
            let fl := flush_section_paragraph node para_start para_lines i base_len
            let node1 := fl.1
            let ps1 := fl.2.1
            let pl1 := fl.2.2
            let range := range_from base_len i r2
            let node2 := node1.pushBlock
              (BlockWithSource.from_source (Block.drawer name content) range)
            headingBodyGo fuel base_len level node2 ps1 pl1 r2
          | .div => .div
          | .err _ =>
          match parse_hr i with
          | some r2 =>
            let fl := flush_section_paragraph node para_start para_lines i base_len
            let node1 := fl.1
            let ps1 := fl.2.1
            let pl1 := fl.2.2
            let range := range_from base_len i r2
            let node2 := node1.pushBlock
              (BlockWithSource.from_source Block.horizontalRule range)
            headingBodyGo fuel base_len level node2 ps1 pl1 r2
          | none =>
          match parse_list i with
          | .ok (kind, items) r2 =>
            let fl := flush_section_paragraph node para_start para_lines i base_len
            let node1 := fl.1
            let ps1 := fl.2.1
            let pl1 := fl.2.2
            let range := range_from base_len i r2
            let node2 := node1.pushBlock
              (BlockWithSource.from_source (Block.list kind items) range)
            headingBodyGo fuel base_len level node2 ps1 pl1 r2
          | .div => .div
          | .err _ =>
            match till_eol i with
            | none => .err i
            | some (line, r2) =>
              let range := range_from base_len i r2
              if (rustTrim line).isEmpty then
                let fl := flush_section_paragraph node para_start para_lines i base_len
            let node1 := fl.1
            let ps1 := fl.2.1
            let pl1 := fl.2.2
                let node2 := node1.pushBlock
                  (BlockWithSource.from_source (Block.paragraph RichText.empty) range)
                headingBodyGo fuel base_len level node2 ps1 pl1 r2
              else
                let ps1 := match para_start with | none => some i | some st => some st
                headingBodyGo fuel base_len level node ps1 (para_lines ++ [line]) r2) := rfl

theorem bodyGo_planning_step {l : Str} {p : Planning} (s : Str)
    (hl : ∀ c ∈ l, c ≠ '\n' ∧ c ≠ '\r')
    (hh : is_heading_line (l ++ ['\n']) = false)
    (hpf : planningFieldsGo (l.length + 1) l Planning.empty false = some p)
    (fuel base_len level : Nat) (node : Heading) :
    headingBodyGo (fuel + 1) base_len level node none [] (l ++ '\n' :: s) =
      headingBodyGo fuel base_len level
        (planStepNode base_len (l ++ '\n' :: s).length l.length 1 p node) none [] s := by
  rw [headingBodyGo_succ]
  have hemp : (l ++ '\n' :: s).isEmpty = false := by cases l <;> rfl
  have hcond : is_heading_line (l ++ '\n' :: s) = false := by
    rw [is_heading_line_boundary l s]
    exact hh
  rw [hemp, hcond, parse_planning_line_boundary s hl, hpf]
  rfl

theorem bodyGo_planning_run (lines : List (Str × Planning)) (s : Str)
    (fuel base_len level : Nat) :
    ∀ (node : Heading), (∀ lp ∈ lines, planLineOk lp) →
    headingBodyGo (fuel + lines.length) base_len level node none []
        (planLinesStr lines ++ s) =
      headingBodyGo fuel base_len level
        (planFold base_len node (planLinesStr lines ++ s).length lines) none [] s := by
  induction lines with
  | nil => intro node _; rfl
  | cons lp rest ih =>
    intro node hwf
    obtain ⟨l, p⟩ := lp
    obtain ⟨hl, hh, hpf⟩ := hwf (l, p) (List.mem_cons_self _ _)
    have hrest : ∀ x ∈ rest, planLineOk x := fun x hx => hwf x (List.mem_cons_of_mem _ hx)
    have hstr : planLinesStr ((l, p) :: rest) ++ s
        = l ++ '\n' :: (planLinesStr rest ++ s) := by
      simp [planLinesStr]
    have hfuel : fuel + ((l, p) :: rest).length = fuel + rest.length + 1 := by
      simp only [List.length_cons]
      omega
    rw [hstr, hfuel,
      bodyGo_planning_step (planLinesStr rest ++ s) hl hh hpf (fuel + rest.length)
        base_len level node,
      ih _ hrest, planFold]
    have harith : (l ++ '\n' :: (planLinesStr rest ++ s)).length - (l.length + 1)
        = (planLinesStr rest ++ s).length := by
      simp only [List.length_cons, List.length_append]
      omega
    rw [harith]

theorem planFold_planning (base_len : Nat) :
    ∀ (lines : List (Str × Planning)) (node : Heading) (i_len : Nat),
    (planFold base_len node i_len lines).data.planning =
      (lines.map Prod.snd).foldl mergePlanning node.data.planning := by
  intro lines
  induction lines with
  | nil => intro node i_len; rfl
  | cons lp rest ih =>
    intro node i_len
    obtain ⟨l, p⟩ := lp
    rw [planFold, ih]
    simp [planStepNode, withData_data]

theorem planFold_range_extend (base_len : Nat) :
    ∀ (lines : List (Str × Planning)) (node : Heading) (i_len st : Nat),
    i_len ≤ base_len →
    (planLinesStr lines).length ≤ i_len →
    node.data.planning_range = some ⟨st, base_len - i_len⟩ →
    (planFold base_len node i_len lines).data.planning_range =
      some ⟨st, base_len - i_len + (planLinesStr lines).length⟩ := by
  intro lines
  induction lines with
  | nil =>
    intro node i_len st _ _ h
    simpa [planFold, planLinesStr] using h
  | cons lp rest ih =>
    intro node i_len st hbl hge h
    obtain ⟨l, p⟩ := lp
    have hlen : l.length + 1 + (planLinesStr rest).length ≤ i_len := by
      have hx := hge
      simp only [planLinesStr, List.length_append, List.length_cons] at hx
      omega
    rw [planFold]
    have h1 : (planStepNode base_len i_len l.length 1 p node).data.planning_range
        = some ⟨st, base_len - (i_len - (l.length + 1))⟩ := by
      simp [planStepNode, withData_data, extendPlanningRange, h]
      omega
    have h2 := ih (planStepNode base_len i_len l.length 1 p node)
      (i_len - (l.length + 1)) st (by omega) (by omega) h1
    rw [h2]
    have h3 : base_len - (i_len - (l.length + 1)) + (planLinesStr rest).length
        = base_len - i_len + (planLinesStr ((l, p) :: rest)).length := by
      simp only [planLinesStr, List.length_append, List.length_cons]
      omega
    rw [h3]

theorem planLinesStr_length (lines : List (Str × Planning)) :
    lines.length ≤ (planLinesStr lines).length := by
  induction lines with
  | nil => simp [planLinesStr]
  | cons lp rest ih =>
    obtain ⟨l, p⟩ := lp
    simp only [planLinesStr, List.length_append, List.length_cons]
    omega

theorem headingBodyGo_nil (fuel base_len level : Nat) (node : Heading) :
    headingBodyGo (fuel + 1) base_len level node none [] [] = .ok node [] := rfl

theorem parse_headline_T (base_len : Nat) (s : Str) :
    parse_headline ('*' :: ' ' :: 'T' :: '\n' :: s) base_len =
      some (headingT base_len s.length, s) := rfl

theorem headingsTreeGo_oneT (fuel base_len : Nat) (body : Str) :
    headingsTreeGo (fuel + 2) base_len [] [] ('*' :: ' ' :: 'T' :: '\n' :: body) =
      match headingBodyGo (fuel + 1) base_len 1 (headingT base_len body.length)
          none [] body with
      | .ok node' rest => headingsTreeGo (fuel + 1) base_len [node'] [] rest
      | .err f => .err f
      | .div => .div := rfl

theorem headingsTreeGo_fin (fuel base_len : Nat) (h : Heading) :
    headingsTreeGo (fuel + 1) base_len [h] [] [] = .ok [h] [] := rfl

theorem parse_org_oneT (body : Str) :
    parse_org_from_str none ('*' :: ' ' :: 'T' :: '\n' :: body) =
      match parse_headings_tree ('*' :: ' ' :: 'T' :: '\n' :: body)
          ('*' :: ' ' :: 'T' :: '\n' :: body).length with
      | .err frag => .fail "headings".toList frag
      | .div => .div
      | .ok headings _ =>
        .ok { OrgFile.new none with
              source_text := some ('*' :: ' ' :: 'T' :: '\n' :: body)
              headings := headings } := rfl

theorem parse_planFamily (lines : List (Str × Planning))
    (hwf : ∀ lp ∈ lines, planLineOk lp) :
    parse_org_from_str none ('*' :: ' ' :: 'T' :: '\n' :: planLinesStr lines) =
      .ok { OrgFile.new none with
            source_text := some ('*' :: ' ' :: 'T' :: '\n' :: planLinesStr lines)
            headings := [planFold ('*' :: ' ' :: 'T' :: '\n' :: planLinesStr lines).length
              (headingT ('*' :: ' ' :: 'T' :: '\n' :: planLinesStr lines).length
                (planLinesStr lines).length)
              (planLinesStr lines).length lines] } := by
  have hlen0 : ('*' :: ' ' :: 'T' :: '\n' :: planLinesStr lines).length
      = (planLinesStr lines).length + 4 := by
    simp
  have hn : lines.length ≤ (planLinesStr lines).length := planLinesStr_length lines
  rw [parse_org_oneT (planLinesStr lines)]
  suffices htree : parse_headings_tree ('*' :: ' ' :: 'T' :: '\n' :: planLinesStr lines)
      ('*' :: ' ' :: 'T' :: '\n' :: planLinesStr lines).length =
      .ok [planFold ('*' :: ' ' :: 'T' :: '\n' :: planLinesStr lines).length
        (headingT ('*' :: ' ' :: 'T' :: '\n' :: planLinesStr lines).length
          (planLinesStr lines).length)
        (planLinesStr lines).length lines] [] by
    rw [htree]
  unfold parse_headings_tree
  have hF : 2 * ('*' :: ' ' :: 'T' :: '\n' :: planLinesStr lines).length + 4
      = ((2 * ('*' :: ' ' :: 'T' :: '\n' :: planLinesStr lines).length + 2
          - lines.length) + lines.length) + 2 := by
    omega
  rw [hF, headingsTreeGo_oneT
    ((2 * ('*' :: ' ' :: 'T' :: '\n' :: planLinesStr lines).length + 2
      - lines.length) + lines.length)
    ('*' :: ' ' :: 'T' :: '\n' :: planLinesStr lines).length (planLinesStr lines)]
  have hbf : ((2 * ('*' :: ' ' :: 'T' :: '\n' :: planLinesStr lines).length + 2
        - lines.length) + lines.length) + 1
      = ((2 * ('*' :: ' ' :: 'T' :: '\n' :: planLinesStr lines).length + 2
          - lines.length) + 1) + lines.length := by
    omega
  rw [hbf]
  have hrun := bodyGo_planning_run lines []
    ((2 * ('*' :: ' ' :: 'T' :: '\n' :: planLinesStr lines).length + 2
      - lines.length) + 1)
    ('*' :: ' ' :: 'T' :: '\n' :: planLinesStr lines).length 1
    (headingT ('*' :: ' ' :: 'T' :: '\n' :: planLinesStr lines).length
      (planLinesStr lines).length) hwf
  rw [List.append_nil] at hrun
  rw [hrun, headingBodyGo_nil]
  dsimp only
  have hff : ((2 * ('*' :: ' ' :: 'T' :: '\n' :: planLinesStr lines).length + 2
        - lines.length) + 1) + lines.length
      = (2 * ('*' :: ' ' :: 'T' :: '\n' :: planLinesStr lines).length + 2) + 1 := by
    omega
  rw [hff]
  exact headingsTreeGo_fin _ _ _

theorem planFold_range_family (l1 : Str) (p1 : Planning)
    (rest : List (Str × Planning)) :
    (planFold ('*' :: ' ' :: 'T' :: '\n' :: planLinesStr ((l1, p1) :: rest)).length
      (headingT ('*' :: ' ' :: 'T' :: '\n' :: planLinesStr ((l1, p1) :: rest)).length
        (planLinesStr ((l1, p1) :: rest)).length)
      (planLinesStr ((l1, p1) :: rest)).length ((l1, p1) :: rest)).data.planning_range
    = some ⟨4, 4 + (planLinesStr ((l1, p1) :: rest)).length⟩ := by
  have hn : ((l1, p1) :: rest).length ≤ (planLinesStr ((l1, p1) :: rest)).length :=
    planLinesStr_length ((l1, p1) :: rest)
  have hL : (planLinesStr ((l1, p1) :: rest)).length
      = l1.length + 1 + (planLinesStr rest).length := by
    simp [planLinesStr]
    omega
  rw [planFold]
  have hbase : ('*' :: ' ' :: 'T' :: '\n' :: planLinesStr ((l1, p1) :: rest)).length
      = (planLinesStr ((l1, p1) :: rest)).length + 4 := by
    simp
  have h1 : (planStepNode
        ('*' :: ' ' :: 'T' :: '\n' :: planLinesStr ((l1, p1) :: rest)).length
        (planLinesStr ((l1, p1) :: rest)).length l1.length 1 p1
        (headingT ('*' :: ' ' :: 'T' :: '\n' :: planLinesStr ((l1, p1) :: rest)).length
          (planLinesStr ((l1, p1) :: rest)).length)).data.planning_range
      = some ⟨4, ('*' :: ' ' :: 'T' :: '\n' :: planLinesStr ((l1, p1) :: rest)).length
          - ((planLinesStr ((l1, p1) :: rest)).length - (l1.length + 1))⟩ := by
    have hpr : ∀ a b : Nat, (headingT a b).data.planning_range = none :=
      fun a b => rfl
    simp [planStepNode, withData_data, extendPlanningRange, hpr]
    omega
  have h2 := planFold_range_extend
    ('*' :: ' ' :: 'T' :: '\n' :: planLinesStr ((l1, p1) :: rest)).length rest
    (planStepNode
      ('*' :: ' ' :: 'T' :: '\n' :: planLinesStr ((l1, p1) :: rest)).length
      (planLinesStr ((l1, p1) :: rest)).length l1.length 1 p1
      (headingT ('*' :: ' ' :: 'T' :: '\n' :: planLinesStr ((l1, p1) :: rest)).length
        (planLinesStr ((l1, p1) :: rest)).length))
    ((planLinesStr ((l1, p1) :: rest)).length - (l1.length + 1)) 4
    (by omega) (by omega) h1
  rw [h2]
  have h3 : ('*' :: ' ' :: 'T' :: '\n' :: planLinesStr ((l1, p1) :: rest)).length
        - ((planLinesStr ((l1, p1) :: rest)).length - (l1.length + 1))
        + (planLinesStr rest).length
      = 4 + (planLinesStr ((l1, p1) :: rest)).length := by
    omega
  rw [h3]

/-- Claim C3: when a heading's body consists of several planning lines, the
resulting `Planning` value is the left fold of the per-line values under
`mergePlanning` (a field seen on a later line overwrites an earlier value of
the same field, an absent field keeps it), and the heading's cached
`planning_range` spans from the start of the first planning line (byte 4,
right after the headline `"* T\n"`) to the end of the last one. -/
theorem claim_C3 (lines : List (Str × Planning))
    (hne : lines ≠ [])
    (hwf : ∀ lp ∈ lines, planLineOk lp) :
    ∃ h : Heading,
      parse_org_from_str none ('*' :: ' ' :: 'T' :: '\n' :: planLinesStr lines) =
        .ok { OrgFile.new none with
              source_text := some ('*' :: ' ' :: 'T' :: '\n' :: planLinesStr lines)
              headings := [h] } ∧
      h.data.planning =
        (lines.map Prod.snd).foldl mergePlanning Planning.empty ∧
      h.data.planning_range = some ⟨4, 4 + (planLinesStr lines).length⟩ := by
  refine ⟨planFold ('*' :: ' ' :: 'T' :: '\n' :: planLinesStr lines).length
    (headingT ('*' :: ' ' :: 'T' :: '\n' :: planLinesStr lines).length
      (planLinesStr lines).length)
    (planLinesStr lines).length lines, parse_planFamily lines hwf, ?_, ?_⟩
  · rw [planFold_planning]
    rfl
  · rcases lines with _ | ⟨⟨l1, p1⟩, rest⟩
    · exact absurd rfl hne
    · exact planFold_range_family l1 p1 rest

/-- Claim C3 witness: two concrete planning lines under `"* T"`; the second
line's `SCHEDULED` overwrites the first and the cached range spans both
lines. -/
theorem claim_C3_witness :
    ∃ h : Heading,
      parse_org_from_str none ('*' :: ' ' :: 'T' :: '\n' :: planLinesStr planLinesC3) =
        .ok { OrgFile.new none with
              source_text := some ('*' :: ' ' :: 'T' :: '\n' :: planLinesStr planLinesC3)
              headings := [h] } ∧
      h.data.planning =
        (planLinesC3.map Prod.snd).foldl mergePlanning Planning.empty ∧
      h.data.planning_range = some ⟨4, 4 + (planLinesStr planLinesC3).length⟩ :=
  claim_C3 planLinesC3 (List.cons_ne_nil _ _)
    (by
      intro lp hlp
      have hmem : lp = planLinesC3[0] ∨ lp = planLinesC3[1] := by
        simpa [planLinesC3] using hlp
      rcases hmem with rfl | rfl
      · exact ⟨by decide, by decide, rfl⟩
      · exact ⟨by decide, by decide, rfl⟩)

/-- Claim C2: parsing `"* A\n*** B\n** C\n"` yields exactly one root heading
`A` with children `[B, C]` in that order; and in general the stack placement
step of `parse_headings_tree` pops every open heading whose level is `≥ L`
(attaching each popped heading to the new stack top, or to the roots when
the stack empties) and stops at the first open heading of level `< L`. -/
theorem claim_C2 :
    outlinesOf (parseOrg "* A\n*** B\n** C\n") =
      some [.mk 1 "A".toList [.mk 3 "B".toList [], .mk 2 "C".toList []]] ∧
    (∀ (fuel : Nat) (top : Heading) (stack roots : List Heading) (level : Nat),
        top.level < level →
        placeGo (fuel + 1) (top :: stack) roots level = (top :: stack, roots)) ∧
    (∀ (fuel : Nat) (top parent : Heading) (stack roots : List Heading) (level : Nat),
        level ≤ top.level →
        placeGo (fuel + 1) (top :: parent :: stack) roots level =
          placeGo fuel (parent.addChildren [top] :: stack) roots level) ∧
    (∀ (fuel : Nat) (top : Heading) (roots : List Heading) (level : Nat),
        level ≤ top.level →
        placeGo (fuel + 1) [top] roots level = placeGo fuel [] (roots ++ [top]) level) := by
  refine ⟨rfl, ?_, ?_, ?_⟩
  · intro fuel top stack roots level h
    cases stack with
    | nil =>
      show (if top.level < level then (top :: [], roots)
            else placeGo fuel [] (roots ++ [top]) level) = (top :: [], roots)
      rw [if_pos h]
    | cons parent rest =>
      show (if top.level < level then (top :: parent :: rest, roots)
            else placeGo fuel (parent.addChildren [top] :: rest) roots level)
          = (top :: parent :: rest, roots)
      rw [if_pos h]
  · intro fuel top parent stack roots level h
    show (if top.level < level then (top :: parent :: stack, roots)
          else placeGo fuel (parent.addChildren [top] :: stack) roots level)
        = placeGo fuel (parent.addChildren [top] :: stack) roots level
    rw [if_neg (not_lt.mpr h)]
  · intro fuel top roots level h
    show (if top.level < level then (top :: [], roots)
          else placeGo fuel [] (roots ++ [top]) level)
        = placeGo fuel [] (roots ++ [top]) level
    rw [if_neg (not_lt.mpr h)]

/-- Claim C2 witness: the pop law applied to a level-3 heading meeting a
level-2 boundary (popped to the roots) and the stop law applied to a level-1
heading meeting the same boundary (kept on the stack). -/
theorem claim_C2_witness :
    placeGo 1 [Heading.new 3 ⟨[]⟩] [] 2 = placeGo 0 [] ([] ++ [Heading.new 3 ⟨[]⟩]) 2 ∧
    placeGo 1 [Heading.new 1 ⟨[]⟩] [] 2 = ([Heading.new 1 ⟨[]⟩], []) :=
  ⟨claim_C2.2.2.2 0 (Heading.new 3 ⟨[]⟩) [] 2 (by decide),
   claim_C2.2.1 0 (Heading.new 1 ⟨[]⟩) [] [] 2 (by decide)⟩

theorem withData_children (h : Heading) (d : HeadingData) :
    (h.withData d).children = h.children := by
  cases h
  rfl

theorem planFold_data_fields (base_len : Nat) :
    ∀ (lines : List (Str × Planning)) (node : Heading) (i_len : Nat),
    (planFold base_len node i_len lines).data.headline_range = node.data.headline_range ∧
    (planFold base_len node i_len lines).data.properties_range = node.data.properties_range ∧
    (planFold base_len node i_len lines).data.logbook_range = node.data.logbook_range ∧
    (planFold base_len node i_len lines).data.properties = node.data.properties ∧
    (planFold base_len node i_len lines).data.logbook = node.data.logbook ∧
    (planFold base_len node i_len lines).data.sec = node.data.sec ∧
    (planFold base_len node i_len lines).children = node.children := by
  intro lines
  induction lines with
  | nil => intro node i_len; exact ⟨rfl, rfl, rfl, rfl, rfl, rfl, rfl⟩
  | cons lp rest ih =>
    intro node i_len
    obtain ⟨l, p⟩ := lp
    rw [planFold]
    obtain ⟨h1, h2, h3, h4, h5, h6, h7⟩ :=
      ih (planStepNode base_len i_len l.length 1 p node) (i_len - (l.length + 1))
    rw [h1, h2, h3, h4, h5, h6, h7]
    refine ⟨?_, ?_, ?_, ?_, ?_, ?_, ?_⟩ <;>
      simp [planStepNode, withData_data, withData_children]

theorem slice_suffix (pre rest : Str) :
    SourceRange.slice ⟨pre.length, pre.length + rest.length⟩ (pre ++ rest) = rest := by
  unfold SourceRange.slice
  rw [List.drop_left]
  have h : pre.length + rest.length - pre.length = rest.length := by omega
  rw [h, List.take_length]

theorem slice_body (body : Str) :
    SourceRange.slice ⟨4, 4 + body.length⟩ ('*' :: ' ' :: 'T' :: '\n' :: body) = body := by
  have h := slice_suffix ['*', ' ', 'T', '\n'] body
  simpa using h

theorem format_children_nil (out : Str) (source : Option Str) :
    format_children out [] source = out := rfl

theorem format_heading_eq (out : Str) (h : Heading) (source : Option Str)
    (is_root_level : Bool) :
    format_heading out h source is_root_level =
      (let out1 := if !is_root_level && !(out.getLast? == some '\n')
        then out ++ ['\n'] else out
       let out2 :=
        match h.data.headline_range, source with
        | some range, some src => out1 ++ range.slice src
        | some _, none => out1 ++ render_headline h
        | none, _ => out1 ++ render_headline h
       let out3 :=
        match h.data.planning_range with
        | some range =>
          (match source with
           | some src => out2 ++ range.slice src
           | none => out2)
        | none =>
          if h.data.planning.scheduled.isSome || h.data.planning.deadline.isSome ||
             h.data.planning.closed.isSome then
            out2 ++ render_planning h.data.planning
          else out2
       let out4 :=
        match h.data.properties_range with
        | some range =>
          (match source with
           | some src => out3 ++ range.slice src
           | none => out3)
        | none =>
          if h.data.properties.props.isEmpty then out3
          else out3 ++ render_properties h.data.properties
       let out5 :=
        match h.data.logbook_range with
        | some range =>
          (match source with
           | some src => out4 ++ range.slice src
           | none => out4)
        | none =>
          if h.data.logbook.clock.isEmpty && h.data.logbook.raw.isEmpty then out4
          else out4 ++ render_logbook h.data.logbook
       let out6 := h.data.sec.blocks.foldl (fun o b => append_block o b source) out5
       format_children out6 h.children source) := by
  cases h
  rfl

theorem slice_head4 (body : Str) :
    SourceRange.slice ⟨0, 4⟩ ('*' :: ' ' :: 'T' :: '\n' :: body) = ['*', ' ', 'T', '\n'] :=
  rfl

/-- Claim C1, amended: the round-trip law `format_org_file ∘ parse = id`
does not hold for all fully-consumed inputs (see the counterexamples), but
it does hold on documents consisting of a headline followed by a run of
planning lines: formatting the parse result reproduces the input byte for
byte. -/
theorem claim_C1_amended (lines : List (Str × Planning))
    (hwf : ∀ lp ∈ lines, planLineOk lp) :
    ∃ f : OrgFile,
      parse_org_from_str none ('*' :: ' ' :: 'T' :: '\n' :: planLinesStr lines) = .ok f ∧
      format_org_file f = '*' :: ' ' :: 'T' :: '\n' :: planLinesStr lines := by
  refine ⟨_, parse_planFamily lines hwf, ?_⟩
  rcases lines with _ | ⟨⟨l1, p1⟩, rest⟩
  · rfl
  · show format_heading []
      (planFold ('*' :: ' ' :: 'T' :: '\n' :: planLinesStr ((l1, p1) :: rest)).length
        (headingT ('*' :: ' ' :: 'T' :: '\n' :: planLinesStr ((l1, p1) :: rest)).length
          (planLinesStr ((l1, p1) :: rest)).length)
        (planLinesStr ((l1, p1) :: rest)).length ((l1, p1) :: rest))
      (some ('*' :: ' ' :: 'T' :: '\n' :: planLinesStr ((l1, p1) :: rest))) true
      = '*' :: ' ' :: 'T' :: '\n' :: planLinesStr ((l1, p1) :: rest)
    obtain ⟨hf1, hf2, hf3, hf4, hf5, hf6, hf7⟩ := planFold_data_fields
      ('*' :: ' ' :: 'T' :: '\n' :: planLinesStr ((l1, p1) :: rest)).length
      ((l1, p1) :: rest)
      (headingT ('*' :: ' ' :: 'T' :: '\n' :: planLinesStr ((l1, p1) :: rest)).length
        (planLinesStr ((l1, p1) :: rest)).length)
      (planLinesStr ((l1, p1) :: rest)).length
    have hplan := planFold_range_family l1 p1 rest
    have hT1 : (headingT
        ('*' :: ' ' :: 'T' :: '\n' :: planLinesStr ((l1, p1) :: rest)).length
        (planLinesStr ((l1, p1) :: rest)).length).data.headline_range
        = some ⟨0, 4⟩ := by
      have hb : ('*' :: ' ' :: 'T' :: '\n' :: planLinesStr ((l1, p1) :: rest)).length
          = (planLinesStr ((l1, p1) :: rest)).length + 4 := by
        simp
      simp [headingT, withData_data]
      omega
    rw [format_heading_eq, hf1, hf2, hf3, hf4, hf5, hf6, hf7, hplan, hT1]
    simp [headingT, withData_data, withData_children, Heading.new, Heading.children,
      Heading.data, Heading.withData, slice_head4, slice_body, PropertyDrawer.empty,
      Logbook.empty, Section.empty, format_children_nil]

/-- Claim C1 amended-law witness: one concrete deadline planning line. -/
theorem claim_C1_witness :
    ∃ f : OrgFile,
      parse_org_from_str none ('*' :: ' ' :: 'T' :: '\n' :: planLinesStr planLinesC1) =
        .ok f ∧
      format_org_file f = '*' :: ' ' :: 'T' :: '\n' :: planLinesStr planLinesC1 :=
  claim_C1_amended planLinesC1
    (by
      intro lp hlp
      have hmem : lp = planLinesC1[0] := by simpa [planLinesC1] using hlp
      rcases hmem with rfl
      exact ⟨by decide, by decide, rfl⟩)
